import Mathlib

/-!
Shallow embedding of `src/arxml_preprocessor.py` (repository
premsatpute/arxml_parser) and proofs about it.

XML documents are modelled after `xml.etree.ElementTree`: an element has a
tag, an optional text (`None` in Python is `Option.none` here) and a list of
children.  The specific ElementPath queries used by the source are modelled
as dedicated operations (`findChild` for `find('t')`, `findallDesc` for
`findall('.//t')`, and so on); their semantics (document order, proper
descendants, per-step child selection) follow ElementTree.

Python runtime errors that the source can raise are modelled with
`Except PyError`: `AttributeError` (attribute access on `None`),
`TypeError` (e.g. `int(None)`, joining `None`), `ValueError` (e.g.
`int("x")`) and `SyntaxError` (`xml.etree` rejects the XPath predicate
`[@DEST='...' and .='...']` used on line 159 of the source with
`SyntaxError: invalid predicate`).

Python `dict` is modelled as an association list whose insert replaces an
existing key in place and appends a new key at the end, exactly the
insertion-order semantics of `dict`.
-/

/-- An XML element: tag, text (`Option.none` models ElementTree's `None` text)
and the list of child elements. -/
inductive Elem : Type where
  | mk (tag : String) (text : Option String) (children : List Elem)

def Elem.tag : Elem → String
  | .mk t _ _ => t

def Elem.text : Elem → Option String
  | .mk _ x _ => x

def Elem.children : Elem → List Elem
  | .mk _ _ cs => cs

mutual

/-- All proper descendants of an element in document (pre-)order; models the
element set traversed by ElementTree's `.//` (which excludes the element
itself). -/
def Elem.descendants : Elem → List Elem
  | .mk _ _ cs => Elem.descList cs

def Elem.descList : List Elem → List Elem
  | [] => []
  | c :: cs => c :: (Elem.descendants c ++ Elem.descList cs)

end

/-- `e.find('tag')`: first direct child with the given tag. -/
def Elem.findChild (e : Elem) (t : String) : Option Elem :=
  e.children.find? (fun c => c.tag == t)

/-- All direct children with the given tag, in order. -/
def Elem.childrenTagged (e : Elem) (t : String) : List Elem :=
  e.children.filter (fun c => c.tag == t)

/-- `e.findall('.//tag')`: all proper descendants with the given tag in
document order. -/
def Elem.findallDesc (e : Elem) (t : String) : List Elem :=
  e.descendants.filter (fun c => c.tag == t)

/-- `e.find('.//tag')`: first proper descendant with the given tag. -/
def Elem.findDesc (e : Elem) (t : String) : Option Elem :=
  (e.findallDesc t).head?

/-- `e.findall('.//tA/tB')`: for each descendant tagged `tA` in document
order, its children tagged `tB`. -/
def Elem.findallDescChild (e : Elem) (tA tB : String) : List Elem :=
  (e.findallDesc tA).flatMap (fun a => a.childrenTagged tB)

/-- `e.find('tA/tB')`: first element among the `tB` children of the `tA`
children of `e`. -/
def Elem.findChildPath (e : Elem) (tA tB : String) : Option Elem :=
  ((e.childrenTagged tA).flatMap (fun a => a.childrenTagged tB)).head?

/-- The Python exception classes the source can raise. -/
inductive PyError : Type where
  | attributeError
  | typeError
  | valueError
  | syntaxError
deriving DecidableEq, Repr

/-- Python `dict` with keys `κ`: an association list; insertion-order
semantics. -/
abbrev PyDict (κ β : Type) := List (κ × β)

/-- `d[k] = v`: replace in place if `k` is already a key, else append. -/
def pyInsert [DecidableEq κ] (k : κ) (v : β) : PyDict κ β → PyDict κ β
  | [] => [(k, v)]
  | (k', v') :: rest => if k' = k then (k, v) :: rest else (k', v') :: pyInsert k v rest

/-- `d.get(k)`: the value stored under `k`, if any. -/
def pyGet? [DecidableEq κ] (k : κ) : PyDict κ β → Option β
  | [] => none
  | (k', v) :: rest => if k' = k then some v else pyGet? k rest

/-- The keys of a dict, in insertion order. -/
def pyKeys (d : PyDict κ β) : List κ := d.map Prod.fst

/-- ASCII decimal digit test (`[0-9]` in the source's regular expression). -/
def isAsciiDigit (c : Char) : Bool := 48 ≤ c.toNat && c.toNat ≤ 57

/-- Python's `str.lower()` restricted to ASCII, per character (the source
only ever lower-cases identifier-like ASCII names). -/
def pyLowerChar (c : Char) : Char :=
  if 65 ≤ c.toNat && c.toNat ≤ 90 then Char.ofNat (c.toNat + 32) else c

def pyLower (s : List Char) : List Char := s.map pyLowerChar

/-- `pat` is a prefix of `s` (used to model `str.replace` occurrence
matching). -/
def leadsWith : List Char → List Char → Bool
  | [], _ => true
  | _ :: _, [] => false
  | p :: ps, c :: cs => p == c && leadsWith ps cs

/-- Scan step of `str.replace(pat, "")`.  The `fuel` argument only makes the
recursion structural (each step consumes at least one character, so any
`fuel ≥` the list's length is enough and the `0` case is unreachable from
`removeSub`). -/
def removeSubAux (pat : List Char) : Nat → List Char → List Char
  | _, [] => []
  | 0, l => l
  | fuel + 1, c :: rest =>
    if pat ≠ [] ∧ leadsWith pat (c :: rest) = true then
      removeSubAux pat fuel (rest.drop (pat.length - 1))
    else
      c :: removeSubAux pat fuel rest

/-- Python `s.replace(pat, "")` for a non-empty `pat`: scan left to right,
delete each occurrence, continue after the deleted occurrence. -/
def removeSub (pat : List Char) (l : List Char) : List Char :=
  removeSubAux pat l.length l

/-- `normalize_name` (source lines 20-21):
`name.replace("SomeIp", "").replace("_SI", "").replace("_", "").lower()`. -/
def normalize_name (name : String) : String :=
  ⟨pyLower (removeSub ("_".data) (removeSub ("_SI".data) (removeSub ("SomeIp".data) name.data)))⟩

/-- The longest all-ASCII-digit suffix of a character list. -/
def trailingDigits (s : List Char) : List Char :=
  ((s.reverse).takeWhile isAsciiDigit).reverse

/-- Python's `$` anchor (no `re.MULTILINE`): it matches at the very end of
the string and also just before a single newline at the end of the string.
Since no character of the pattern group can be a newline, matching a
`...$`-pattern against `s` is the same as matching it, end-anchored, against
`s` with one trailing newline (if any) removed — this trimming. -/
def pyDollarTrim (l : List Char) : List Char :=
  match l.getLast? with
  | some c => if c = '\n' then l.dropLast else l
  | none => l

/-- End-anchored matching of `_([0-9]\x7b2,4\x7d)` against a character list:
some result exactly when the longest trailing run of ASCII digits has length
2 to 4 and is immediately preceded by an underscore; the result is that
run (`group(1)`). -/
def cycleMatchL? (l : List Char) : Option (List Char) :=
  if 2 ≤ (trailingDigits l).length ∧ (trailingDigits l).length ≤ 4 ∧
      (l.take (l.length - (trailingDigits l).length)).getLast? = some '_' then
    some (trailingDigits l)
  else none

/-- `re.search(r'_([0-9]\x7b2,4\x7d)$', s)`: the regular expression used by both
cycle-time functions (source lines 48 and 184).  Per Python's `$`, the
pattern is matched end-anchored against `s` with a single trailing newline,
if present, discarded. -/
def cycleMatch? (s : String) : Option (List Char) :=
  cycleMatchL? (pyDollarTrim s.data)

/-- Numeric value of a list of ASCII digits (the value `int`/`float` give to
a digit-only string). -/
def digitsToNat (ds : List Char) : Nat :=
  ds.foldl (fun a c => 10 * a + (c.toNat - 48)) 0

def stripTrailingZeros (l : List Char) : List Char :=
  ((l.reverse).dropWhile (fun c => c == '0')).reverse

/-- The three decimal digits of `r < 1000`, zero padded. -/
def natDigits3 (r : Nat) : List Char :=
  [Char.ofNat (48 + r / 100), Char.ofNat (48 + (r / 10) % 10), Char.ofNat (48 + r % 10)]

/-- Python `str(float(n) / 1000)` for `0 ≤ n ≤ 9999` (the only values the
2-4 digit regex group can produce): the exact decimal, trailing zeros of the
fractional part stripped, at least one fractional digit kept. -/
def renderDiv1000 (n : Nat) : String :=
  let q := n / 1000
  let frac := stripTrailingZeros (natDigits3 (n % 1000))
  ⟨(toString q).data ++ '.' :: (if frac = [] then ['0'] else frac)⟩

/-- `infer_cycle_time_from_name` (source lines 47-51). -/
def infer_cycle_time_from_name (pdu_name : String) : String :=
  match cycleMatch? pdu_name with
  | some run => renderDiv1000 (digitsToNat run)
  | none => "0.0"

/-- `infer_cycle_time_details` (source lines 183-191). -/
def infer_cycle_time_details (pdu_name : String) : String × String :=
  match cycleMatch? pdu_name with
  | some run => (⟨run⟩, renderDiv1000 (digitsToNat run))
  | none => ("None", "0.0")

/-- The pervasive source idiom `elem.text if elem is not None else dflt`:
the default string when the element is absent, otherwise its text (which is
Python `None`, i.e. `Option.none`, for an empty element). -/
def textOrDefault (o : Option Elem) (dflt : String) : Option String :=
  match o with
  | none => some dflt
  | some e => e.text

/-- `s.split('/')[-1]`: the suffix after the last slash (`str.split` always
returns a non-empty list, so indexing `[-1]` never fails). -/
def pyLastSeg (s : String) : String :=
  ⟨((s.data.reverse).takeWhile (fun c => c != '/')).reverse⟩

/-- ASCII whitespace stripped by Python `int()`. -/
def isPySpace (c : Char) : Bool :=
  c == ' ' || c == '\t' || c == '\n' || c == '\r' || c.toNat == 11 || c.toNat == 12

def pyStrip (s : List Char) : List Char :=
  ((s.dropWhile isPySpace).reverse.dropWhile isPySpace).reverse

/-- After a first digit, Python `int()` accepts digits with single
underscores strictly between digits. -/
def pyIntTail : List Char → Bool
  | [] => true
  | '_' :: c :: rest => isAsciiDigit c && pyIntTail rest
  | '_' :: [] => false
  | c :: rest => isAsciiDigit c && pyIntTail rest

/-- The unsigned part of Python `int()`: non-empty, a leading digit, then
digits with optional single underscores between digits. -/
def pyIntNat? : List Char → Option Nat
  | [] => none
  | c :: rest =>
    if isAsciiDigit c && pyIntTail rest then
      some (digitsToNat ((c :: rest).filter (fun d => d != '_')))
    else none

/-- Python `int(s)` for a string argument: optional surrounding whitespace,
optional sign, digit groups; raises `ValueError` otherwise. -/
def pyInt (s : String) : Except PyError Int :=
  match pyStrip s.data with
  | '+' :: rest =>
    match pyIntNat? rest with
    | some n => Except.ok (Int.ofNat n)
    | none => Except.error PyError.valueError
  | '-' :: rest =>
    match pyIntNat? rest with
    | some n => Except.ok (-(Int.ofNat n : Int))
    | none => Except.error PyError.valueError
  | rest =>
    match pyIntNat? rest with
    | some n => Except.ok (Int.ofNat n)
    | none => Except.error PyError.valueError

/-- Base code points of the runs of ten Unicode decimal digits (category
`Nd`) of the `unicodedata` CPython ships: a character `c` is a decimal digit
with value `c - base` when `base ≤ c < base + 10`.  These are exactly the
characters `int()` accepts as digits. -/
def ndRangeStarts : List Nat :=
  [48, 1632, 1776, 1984, 2406, 2534, 2662, 2790, 2918, 3046, 3174, 3302,
  3430, 3558, 3664, 3792, 3872, 4160, 4240, 6112, 6160, 6470, 6608, 6784,
  6800, 6992, 7088, 7232, 7248, 42528, 43216, 43264, 43472, 43504, 43600,
  44016, 65296, 66720, 68912, 69734, 69872, 69942, 70096, 70384, 70736,
  70864, 71248, 71360, 71472, 71904, 72016, 72784, 73040, 73120, 92768,
  92864, 93008, 120782, 120792, 120802, 120812, 120822, 123200, 123632,
  125264, 130032]

/-- Code points with Unicode `Numeric_Type=Digit` that are not decimal
digits (superscripts such as `'²'`, circled and parenthesized digits, …):
`str.isdigit()` is true of them, yet `int()` rejects them with
`ValueError`. -/
def digitOnlyCodes : List Nat :=
  [178, 179, 185, 4969, 4970, 4971, 4972, 4973, 4974, 4975, 4976, 4977, 6618,
  8304, 8308, 8309, 8310, 8311, 8312, 8313, 8320, 8321, 8322, 8323, 8324,
  8325, 8326, 8327, 8328, 8329, 9312, 9313, 9314, 9315, 9316, 9317, 9318,
  9319, 9320, 9332, 9333, 9334, 9335, 9336, 9337, 9338, 9339, 9340, 9352,
  9353, 9354, 9355, 9356, 9357, 9358, 9359, 9360, 9450, 9461, 9462, 9463,
  9464, 9465, 9466, 9467, 9468, 9469, 9471, 10102, 10103, 10104, 10105,
  10106, 10107, 10108, 10109, 10110, 10112, 10113, 10114, 10115, 10116,
  10117, 10118, 10119, 10120, 10122, 10123, 10124, 10125, 10126, 10127,
  10128, 10129, 10130, 68160, 68161, 68162, 68163, 69216, 69217, 69218,
  69219, 69220, 69221, 69222, 69223, 69224, 69714, 69715, 69716, 69717,
  69718, 69719, 69720, 69721, 69722, 127232, 127233, 127234, 127235, 127236,
  127237, 127238, 127239, 127240, 127241, 127242]

/-- The decimal value of a Unicode decimal digit (`unicodedata.decimal`),
`none` for every other character. -/
def pyDecimalVal? (c : Char) : Option Nat :=
  (ndRangeStarts.find? (fun b => b ≤ c.toNat && c.toNat < b + 10)).map
    (fun b => c.toNat - b)

/-- One character of a Python digit string: a decimal digit or a
`Numeric_Type=Digit` character. -/
def pyCharIsDigit (c : Char) : Bool :=
  (pyDecimalVal? c).isSome || digitOnlyCodes.contains c.toNat

/-- Python `s.isdigit()`: non-empty and every character a Unicode digit
(decimal or digit-only, e.g. `'١'` and `'²'` both qualify while `'-'` does
not). -/
def pyIsDigit (s : String) : Bool :=
  s.data ≠ [] && s.data.all pyCharIsDigit

/-- Base-10 accumulation of the per-character decimal values: the value
`int()` gives to a string of decimal digits, `none` as soon as a character
has no decimal value (then `int()` raises `ValueError`). -/
def pyDecimalAcc? : List Char → Nat → Option Nat
  | [], acc => some acc
  | c :: rest, acc =>
    match pyDecimalVal? c with
    | some d => pyDecimalAcc? rest (10 * acc + d)
    | none => none

def hexDigitChar (n : Nat) : Char :=
  if n < 10 then Char.ofNat (48 + n) else Char.ofNat (55 + n)

/-- Digit-accumulation step of hexadecimal rendering.  The `fuel` argument
only makes the recursion structural (the value shrinks by a factor of 16
each step, so any `fuel ≥` the value is enough and the fuel-exhausted case
is unreachable from `natToHexUpper`). -/
def natToHexAux : Nat → Nat → List Char → List Char
  | _, 0, acc => acc
  | 0, _ + 1, acc => acc
  | fuel + 1, n + 1, acc => natToHexAux fuel ((n + 1) / 16) (hexDigitChar ((n + 1) % 16) :: acc)

/-- Python `f"{n:X}"`: upper-case hexadecimal digits of `n`. -/
def natToHexUpper (n : Nat) : String :=
  if n = 0 then "0" else ⟨natToHexAux n n []⟩

/-- The `hex_value` computation of `extract_signal_compu_methods` (source
lines 134-137): `f"0x{int(lower_limit):X}" if lower_limit.isdigit() else
'0x0'` wrapped in `try/except ValueError`.  The except branch is reachable:
`isdigit` also accepts digit-only characters such as `'²'`, on which
`int()` raises `ValueError` and the value falls back to `'0x0'`. -/
def pyHexFormat (lower_limit : String) : String :=
  if pyIsDigit lower_limit then
    match pyDecimalAcc? lower_limit.data 0 with
    | some n => "0x" ++ natToHexUpper n
    | none => "0x0"
  else "0x0"

/-- `','.join(items)` over a list of values that are each a string or `None`;
a `None` raises `TypeError`. -/
def pyJoin (sep : String) (items : List (Option String)) : Except PyError String :=
  match seqOption items with
  | some l => Except.ok (String.intercalate sep l)
  | none => Except.error PyError.typeError
where
  seqOption : List (Option String) → Option (List String)
    | [] => some []
    | none :: _ => none
    | some s :: rest => (seqOption rest).map (fun l => s :: l)

/-- A Python value stored in one of the per-signal dicts: a string, an
integer, or `None`. -/
inductive PyVal : Type where
  | str (s : String)
  | int (i : Int)
  | null
deriving DecidableEq, Repr

/-- `Option String` (a Python `str`-or-`None`) as a `PyVal`. -/
def optToVal : Option String → PyVal
  | some s => PyVal.str s
  | none => PyVal.null

/-- One value of the map built by `parse_service_interfaces` (source lines
40-44).  `service_id` is `sid.text` (possibly `None`) when the element is
present and the string `''` otherwise, hence `Option String`. -/
structure SRecord where
  service_interface : String
  service_id : Option String
  event_ids : String
deriving DecidableEq, Repr

/-- One value of the map built by `parse_rbs_pdus` (source lines 96-101). -/
structure PduRecord where
  length : Option String
  cycle_time : String
  signals : PyDict String (PyDict String PyVal)
  total_signals : Nat
deriving DecidableEq, Repr

/-- One value of the `Messages` map built by `generate_pdu_metadata`
(source lines 109-118). -/
structure UnifiedMessage where
  pdu_name : String
  service_interface : String
  service_id : Option String
  event_ids : String
  length : Option String
  cycle_time : String
  total_signals : Nat
  signals : PyDict String (PyDict String PyVal)
deriving DecidableEq, Repr

/-- The top-level output `{"Messages": ...}` (source line 119). -/
structure Metadata where
  Messages : PyDict String UnifiedMessage
deriving DecidableEq, Repr

/-- One entry of the `compu_methods` list (source lines 140-145).  The
`signal_name` field holds the compu-method's own short name, which is
`None` when the `SHORT-NAME` element is empty. -/
structure CompuEntry where
  signal_name : Option String
  raw_value : String
  hex_value : String
  description : Option String
deriving DecidableEq, Repr

/-- The body of the `parse_service_interfaces` loop for one
`SOMEIP-SERVICE-INTERFACE-DEPLOYMENT` element (source lines 28-44).
`si.find('SHORT-NAME').text` raises `AttributeError` when the child is
absent; `normalize_name(None)` raises `AttributeError` when its text is
`None`; joining a `None` event id raises `TypeError`. -/
def buildService (si : Elem) : Except PyError (String × SRecord) :=
  match si.findChild "SHORT-NAME" with
  | none => Except.error PyError.attributeError
  | some sn =>
    let sid := si.findDesc "SERVICE-INTERFACE-ID"
    let eventDeployments := si.findallDescChild "EVENT-DEPLOYMENTS" "SOMEIP-EVENT-DEPLOYMENT"
    let event_ids : List (Option String) :=
      eventDeployments.filterMap (fun ev => (ev.findChild "EVENT-ID").map Elem.text)
    match sn.text with
    | none => Except.error PyError.attributeError
    | some siName =>
      let key := normalize_name siName
      match pyJoin "," event_ids with
      | Except.error e => Except.error e
      | Except.ok joined =>
        Except.ok (key,
          { service_interface := siName
            service_id := match sid with
              | none => some ""
              | some e => e.text
            event_ids := joined })

def foldServices : List Elem → PyDict String SRecord → Except PyError (PyDict String SRecord)
  | [], m => Except.ok m
  | si :: rest, m =>
    match buildService si with
    | Except.error e => Except.error e
    | Except.ok kv => foldServices rest (pyInsert kv.1 kv.2 m)

/-- `parse_service_interfaces` (source lines 23-45), taking the parsed
document root. -/
def parse_service_interfaces (doc : Elem) : Except PyError (PyDict String SRecord) :=
  foldServices (doc.findallDesc "SOMEIP-SERVICE-INTERFACE-DEPLOYMENT") []

/-- The signal-length lookup pass of `parse_rbs_pdus` (source lines 59-64).
`signal.find('SHORT-NAME').text` raises `AttributeError` when the child is
absent; a `None` short name or a `None` length is stored as such (Python
allows `None` dict keys and values), hence the `Option String` key and
value types. -/
def foldSignalLengths : List Elem → PyDict (Option String) (Option String) →
    Except PyError (PyDict (Option String) (Option String))
  | [], m => Except.ok m
  | sig :: rest, m =>
    match sig.findChild "SHORT-NAME" with
    | none => Except.error PyError.attributeError
    | some e =>
      foldSignalLengths rest (pyInsert e.text (textOrDefault (sig.findChild "LENGTH") "0") m)

def buildSignalLengthMap (root : Elem) : Except PyError (PyDict (Option String) (Option String)) :=
  foldSignalLengths (root.findallDesc "I-SIGNAL") []

/-- Whether a signal-to-PDU mapping element carries an `I-SIGNAL-REF`
child (source line 82). -/
def hasSigRef (m : Elem) : Bool :=
  (m.findChild "I-SIGNAL-REF").isSome

/-- `int(start_pos.text) if start_pos is not None else -1` (source line 91):
`int(None)` raises `TypeError`, a non-integer text raises `ValueError`. -/
def sigStartBit (m : Elem) : Except PyError Int :=
  match m.findChild "START-POSITION" with
  | none => Except.ok (-1 : Int)
  | some p =>
    match p.text with
    | none => Except.error PyError.typeError
    | some t => pyInt t

/-- The per-signal dict literal of source lines 88-93. -/
def sigEntryDict (slm : PyDict (Option String) (Option String)) (m : Elem)
    (sig_name : String) (start_bit : Int) : PyDict String PyVal :=
  [(sig_name ++ "_value", PyVal.int 0),
   (sig_name ++ "_Byte_order",
     match m.findChild "PACKING-BYTE-ORDER" with
     | none => PyVal.str "Unknown"
     | some b => optToVal b.text),
   (sig_name ++ "_start_bit", PyVal.int start_bit),
   (sig_name ++ "_len",
     optToVal (match pyGet? (some sig_name) slm with
       | some v => v
       | none => some "0"))]

/-- The body of the mapping loop of `parse_rbs_pdus` for one mapping that
does carry an `I-SIGNAL-REF` child `r` (source lines 83-93): resolve the
signal name from the reference's last path segment, build its per-signal
dict.  A `None` reference text raises `AttributeError` (`None.split`). -/
def buildSigEntry (slm : PyDict (Option String) (Option String)) (m : Elem) (r : Elem) :
    Except PyError (String × PyDict String PyVal) :=
  match r.text with
  | none => Except.error PyError.attributeError
  | some refText =>
    match sigStartBit m with
    | Except.error e => Except.error e
    | Except.ok start_bit =>
      Except.ok (pyLastSeg refText, sigEntryDict slm m (pyLastSeg refText) start_bit)

/-- The mapping loop of `parse_rbs_pdus` (source lines 80-94): mappings with
no `I-SIGNAL-REF` child are skipped; each other mapping stores its entry
under the signal name (later mappings overwrite earlier ones with the same
name) and increments the counter. -/
def processMappings (slm : PyDict (Option String) (Option String)) :
    List Elem → PyDict String (PyDict String PyVal) → Nat →
    Except PyError (PyDict String (PyDict String PyVal) × Nat)
  | [], sigs, cnt => Except.ok (sigs, cnt)
  | m :: rest, sigs, cnt =>
    match m.findChild "I-SIGNAL-REF" with
    | none => processMappings slm rest sigs cnt
    | some r =>
      match buildSigEntry slm m r with
      | Except.error e => Except.error e
      | Except.ok se => processMappings slm rest (pyInsert se.1 se.2 sigs) (cnt + 1)

/-- The mappings considered for a PDU element (source line 77). -/
def mappingsOf (pdu : Elem) : List Elem :=
  pdu.findallDescChild "I-SIGNAL-TO-PDU-MAPPINGS" "I-SIGNAL-TO-I-PDU-MAPPING"

/-- The body of the PDU loop of `parse_rbs_pdus` for one `I-SIGNAL-I-PDU`
element (source lines 67-101).  A `SHORT-NAME` child whose text is `None`
makes `re.search` receive `None` and raise `TypeError` (source line 74); an
absent child defaults the name to `'Unnamed_PDU'`.  The `CYCLIC-TIMING`
element is looked up but its value is unused (source line 73). -/
def buildPdu (slm : PyDict (Option String) (Option String)) (pdu : Elem) :
    Except PyError (String × PduRecord) :=
  let length : Option String := textOrDefault (pdu.findChild "LENGTH") "0"
  let _timing := pdu.findDesc "CYCLIC-TIMING"
  match textOrDefault (pdu.findChild "SHORT-NAME") "Unnamed_PDU" with
  | none => Except.error PyError.typeError
  | some pdu_name =>
    let cycle_time := infer_cycle_time_from_name pdu_name
    match processMappings slm (mappingsOf pdu) [] 0 with
    | Except.error e => Except.error e
    | Except.ok sc =>
      Except.ok (pdu_name,
        { length := length
          cycle_time := cycle_time
          signals := sc.1
          total_signals := sc.2 })

def foldPdus (slm : PyDict (Option String) (Option String)) :
    List Elem → PyDict String PduRecord → Except PyError (PyDict String PduRecord)
  | [], m => Except.ok m
  | pdu :: rest, m =>
    match buildPdu slm pdu with
    | Except.error e => Except.error e
    | Except.ok kv => foldPdus slm rest (pyInsert kv.1 kv.2 m)

/-- `parse_rbs_pdus` (source lines 53-102), taking the parsed document
root. -/
def parse_rbs_pdus (doc : Elem) : Except PyError (PyDict String PduRecord) :=
  match buildSignalLengthMap doc with
  | Except.error e => Except.error e
  | Except.ok slm => foldPdus slm (doc.findallDesc "I-SIGNAL-I-PDU") []

/-- The sentinel service record used when the normalized PDU name has no
match (source line 108). -/
def noMatchService : SRecord :=
  { service_interface := "N/A", service_id := some "", event_ids := "" }

def foldMessages (service_data : PyDict String SRecord) :
    List (String × PduRecord) → PyDict String UnifiedMessage → PyDict String UnifiedMessage
  | [], m => m
  | (pdu_name, pdu_info) :: rest, m =>
    let key := normalize_name pdu_name
    let matched_service :=
      match pyGet? key service_data with
      | some r => r
      | none => noMatchService
    foldMessages service_data rest (pyInsert pdu_name
      { pdu_name := pdu_name
        service_interface := matched_service.service_interface
        service_id := matched_service.service_id
        event_ids := matched_service.event_ids
        length := pdu_info.length
        cycle_time := pdu_info.cycle_time
        total_signals := pdu_info.total_signals
        signals := pdu_info.signals } m)

/-- `generate_pdu_metadata` (source lines 104-119). -/
def generate_pdu_metadata (service_data : PyDict String SRecord)
    (pdu_data : PyDict String PduRecord) : Metadata :=
  { Messages := foldMessages service_data pdu_data [] }

/-- The compu-scale elements collected for a compu-method element (source
line 130): `findall('.//COMPU-INTERNAL-TO-PHYS/COMPU-SCALES/COMPU-SCALE')`. -/
def scalesOf (cm : Elem) : List Elem :=
  ((cm.findallDesc "COMPU-INTERNAL-TO-PHYS").flatMap
      (fun x => x.childrenTagged "COMPU-SCALES")).flatMap
    (fun y => y.childrenTagged "COMPU-SCALE")

/-- The scale loop of `extract_signal_compu_methods` (source lines 130-145)
for one compu-method whose short-name text is `compu_name`.  A present
`LOWER-LIMIT` element with `None` text raises `AttributeError`
(`None.isdigit()`, source line 135). -/
def buildCompuScales (compu_name : Option String) :
    List Elem → List CompuEntry → Except PyError (List CompuEntry)
  | [], acc => Except.ok acc
  | scale :: rest, acc =>
    match textOrDefault (scale.findChild "LOWER-LIMIT") "0" with
    | none => Except.error PyError.attributeError
    | some lower_limit =>
      buildCompuScales compu_name rest
        (acc ++ [{ signal_name := compu_name, raw_value := lower_limit,
                   hex_value := pyHexFormat lower_limit,
                   description :=
                     textOrDefault (scale.findChildPath "COMPU-CONST" "VT") "No Description" }])

/-- The compu-method loop of `extract_signal_compu_methods` (source lines
127-145).  `compu_method.find('SHORT-NAME').text` raises `AttributeError`
when the child is absent. -/
def foldCompuMethods : List Elem → List CompuEntry → Except PyError (List CompuEntry)
  | [], acc => Except.ok acc
  | cm :: rest, acc =>
    match cm.findChild "SHORT-NAME" with
    | none => Except.error PyError.attributeError
    | some e =>
      match buildCompuScales e.text (scalesOf cm) acc with
      | Except.error er => Except.error er
      | Except.ok acc2 => foldCompuMethods rest acc2

/-- The compu-method reference reached by the fallback branch of the signal
resolution (source lines 162-166): the signal's first `SW-DATA-DEF-PROPS`
descendant's direct `COMPU-METHOD-REF` child. -/
def directCompuRef (sig : Elem) : Option Elem :=
  match sig.findDesc "SW-DATA-DEF-PROPS" with
  | none => none
  | some sw => sw.findChild "COMPU-METHOD-REF"

/-- Whether the signal has the `PHYSICAL-PROPS → SW-DATA-DEF-PROPS /
DATA-TYPE-REF` chain (source lines 153-158).  When it does, the source then
evaluates `root.find(".//APPLICATION-DATA-TYPE[@DEST='...' and .='...']")`;
`xml.etree.ElementPath` does not support `and` inside a predicate and
raises `SyntaxError: invalid predicate`, so that lookup always fails. -/
def physBlocked (sig : Elem) : Bool :=
  match sig.findDesc "PHYSICAL-PROPS" with
  | some pp => (pp.findChildPath "SW-DATA-DEF-PROPS" "DATA-TYPE-REF").isSome
  | none => false

/-- The per-signal resolution step of `extract_signal_compu_methods`
(source lines 149-178).  The data-type branch always raises `SyntaxError`
when reached (`physBlocked`); otherwise the direct `SW-DATA-DEF-PROPS →
COMPU-METHOD-REF` fallback is tried; a `None` reference text raises
`AttributeError` (`None.split`).  The `for ... else` search keeps the first
entry whose `signal_name` equals the referenced compu-method name. -/
def resolveSignalCompu (compu_methods : List CompuEntry) (sig : Elem) :
    Except PyError (Option String × String) :=
  match sig.findChild "SHORT-NAME" with
  | none => Except.error PyError.attributeError
  | some sn =>
    if physBlocked sig then Except.error PyError.syntaxError
    else
      match directCompuRef sig with
      | none => Except.ok (sn.text, "0.NoCompuMethod")
      | some r =>
        match r.text with
        | none => Except.error PyError.attributeError
        | some t =>
          match compu_methods.find? (fun c => c.signal_name == some (pyLastSeg t)) with
          | some c => Except.ok (sn.text, c.raw_value ++ "." ++ pyLastSeg t)
          | none => Except.ok (sn.text, "0.NoCompuMethod")

def foldSignalCompu (compu_methods : List CompuEntry) :
    List Elem → PyDict (Option String) String →
    Except PyError (PyDict (Option String) String)
  | [], m => Except.ok m
  | sig :: rest, m =>
    match resolveSignalCompu compu_methods sig with
    | Except.error e => Except.error e
    | Except.ok kv => foldSignalCompu compu_methods rest (pyInsert kv.1 kv.2 m)

/-- `extract_signal_compu_methods` (source lines 121-180), taking the parsed
document root; returns the compu-method entry list and the per-signal
compu-method string map. -/
def extract_signal_compu_methods (doc : Elem) :
    Except PyError (List CompuEntry × PyDict (Option String) String) :=
  match foldCompuMethods (doc.findallDesc "COMPU-METHOD") [] with
  | Except.error e => Except.error e
  | Except.ok compu_methods =>
    match foldSignalCompu compu_methods (doc.findallDesc "I-SIGNAL") [] with
    | Except.error e => Except.error e
    | Except.ok signal_compu_map => Except.ok (compu_methods, signal_compu_map)

/-! ### Well-formedness predicates

`rbsWF`/`compuWF` delimit the parseable RBS documents on which
`parse_rbs_pdus` and `extract_signal_compu_methods` cannot raise: they
exclude exactly the element shapes whose handling in the source reaches an
attribute access on `None`, an `int()` of a non-integer, or the unsupported
XPath predicate. -/

/-- The conditions on one signal-to-PDU mapping under which the mapping
step cannot raise: a present `I-SIGNAL-REF` has text and a present
`START-POSITION` has text that `int()` accepts. -/
def mappingWF (m : Elem) : Bool :=
  (match m.findChild "I-SIGNAL-REF" with
   | some r => r.text.isSome
   | none => true) &&
  (match m.findChild "START-POSITION" with
   | some p =>
     match p.text with
     | some t => (pyInt t).isOk
     | none => false
   | none => true)

/-- The conditions on one `I-SIGNAL-I-PDU` element under which the PDU loop
body cannot raise: a present `SHORT-NAME` has text and every mapping is
well formed. -/
def pduWF (pdu : Elem) : Bool :=
  (match pdu.findChild "SHORT-NAME" with
   | some e => e.text.isSome
   | none => true) &&
  (mappingsOf pdu).all mappingWF

/-- The conditions on an RBS document under which `parse_rbs_pdus` cannot
raise: every `I-SIGNAL` has a `SHORT-NAME` child, and every `I-SIGNAL-I-PDU`
satisfies `pduWF`. -/
def rbsWF (doc : Elem) : Bool :=
  ((doc.findallDesc "I-SIGNAL").all (fun s => (s.findChild "SHORT-NAME").isSome)) &&
  ((doc.findallDesc "I-SIGNAL-I-PDU").all pduWF)

/-- The conditions on one `COMPU-METHOD` element under which the scale loop
cannot raise: a `SHORT-NAME` child exists and every present `LOWER-LIMIT`
has text. -/
def compuMethodWF (cm : Elem) : Bool :=
  (cm.findChild "SHORT-NAME").isSome &&
  (scalesOf cm).all (fun sc =>
    match sc.findChild "LOWER-LIMIT" with
    | some e => e.text.isSome
    | none => true)

/-- The conditions on one `I-SIGNAL` element under which the resolution step
cannot raise: a `SHORT-NAME` child exists, no
`PHYSICAL-PROPS → SW-DATA-DEF-PROPS/DATA-TYPE-REF` chain is present (that
chain always reaches the XPath predicate `xml.etree` rejects), and a present
direct compu-method reference has text. -/
def signalCompuWF (sig : Elem) : Bool :=
  (sig.findChild "SHORT-NAME").isSome &&
  !physBlocked sig &&
  (match directCompuRef sig with
   | some r => r.text.isSome
   | none => true)

/-- The conditions on an RBS document under which
`extract_signal_compu_methods` cannot raise. -/
def compuWF (doc : Elem) : Bool :=
  ((doc.findallDesc "COMPU-METHOD").all compuMethodWF) &&
  ((doc.findallDesc "I-SIGNAL").all signalCompuWF)

/-- The specification's reading of the cycle-time pattern: the name ends in
an underscore immediately followed by a run `d` of 2-4 ASCII digits.  (The
underscore in front of `d` makes `d` automatically the longest trailing
digit run.) -/
def cycleSpecMatch (s : String) (d : List Char) : Prop :=
  ∃ p : List Char, s.data = p ++ '_' :: d ∧ d.all isAsciiDigit = true ∧
    2 ≤ d.length ∧ d.length ≤ 4

/-- The amended reading of the cycle-time pattern, with Python's `$`
semantics: after discarding a single trailing newline if present, the name
ends in an underscore immediately followed by a run `d` of 2-4 ASCII
digits. -/
def cycleSpecMatchDollar (s : String) (d : List Char) : Prop :=
  ∃ p : List Char, pyDollarTrim s.data = p ++ '_' :: d ∧
    d.all isAsciiDigit = true ∧ 2 ≤ d.length ∧ d.length ≤ 4

/-! ### Concrete fixture documents used by witnesses and counterexamples -/

/-- The service document of the end-to-end scenario (claim C1): one
service-interface deployment `SomeIp_SI_EngineStatus`, id `42`, one event
id `7`. -/
def c1svcDoc : Elem :=
  .mk "AUTOSAR" none [
    .mk "SOMEIP-SERVICE-INTERFACE-DEPLOYMENT" none [
      .mk "SHORT-NAME" (some "SomeIp_SI_EngineStatus") [],
      .mk "SERVICE-INTERFACE-ID" (some "42") [],
      .mk "EVENT-DEPLOYMENTS" none [
        .mk "SOMEIP-EVENT-DEPLOYMENT" none [
          .mk "EVENT-ID" (some "7") [] ] ] ] ]

/-- The RBS document of the end-to-end scenario (claim C1): one I-PDU
`EngineStatus_100` of length 64 with one mapped signal `Engine_RPM`. -/
def c1rbsDoc : Elem :=
  .mk "AUTOSAR" none [
    .mk "I-SIGNAL" none [
      .mk "SHORT-NAME" (some "Engine_RPM") [],
      .mk "LENGTH" (some "16") [] ],
    .mk "I-SIGNAL-I-PDU" none [
      .mk "SHORT-NAME" (some "EngineStatus_100") [],
      .mk "LENGTH" (some "64") [],
      .mk "I-SIGNAL-TO-PDU-MAPPINGS" none [
        .mk "I-SIGNAL-TO-I-PDU-MAPPING" none [
          .mk "I-SIGNAL-REF" (some "/Pkg/Engine_RPM") [],
          .mk "START-POSITION" (some "8") [],
          .mk "PACKING-BYTE-ORDER" (some "MOST-SIGNIFICANT-BYTE-FIRST") [] ] ] ] ]

/-- The service map the embedding computes for `c1svcDoc`. -/
def c1sm : PyDict String SRecord :=
  [("enginestatus",
    { service_interface := "SomeIp_SI_EngineStatus", service_id := some "42",
      event_ids := "7" })]

/-- The per-signal dict for `Engine_RPM` in the `c1rbsDoc` output. -/
def c1entry : PyDict String PyVal :=
  [("Engine_RPM_value", PyVal.int 0),
   ("Engine_RPM_Byte_order", PyVal.str "MOST-SIGNIFICANT-BYTE-FIRST"),
   ("Engine_RPM_start_bit", PyVal.int 8),
   ("Engine_RPM_len", PyVal.str "16")]

/-- The PDU map the embedding computes for `c1rbsDoc`. -/
def c1pm : PyDict String PduRecord :=
  [("EngineStatus_100",
    { length := some "64", cycle_time := "0.1",
      signals := [("Engine_RPM", c1entry)], total_signals := 1 })]

/-- The unified message actually produced for `EngineStatus_100`: the
normalized PDU name `enginestatus100` does not match the service key
`enginestatus`, so the sentinel service fields are used. -/
def c1msg : UnifiedMessage :=
  { pdu_name := "EngineStatus_100", service_interface := "N/A",
    service_id := some "", event_ids := "", length := some "64",
    cycle_time := "0.1", total_signals := 1,
    signals := [("Engine_RPM", c1entry)] }

/-- A parseable RBS document on which `parse_rbs_pdus` and
`extract_signal_compu_methods` raise: an `I-SIGNAL` with no `SHORT-NAME`
child (claim C2's counterexample). -/
def c2badDoc : Elem :=
  .mk "AUTOSAR" none [ .mk "I-SIGNAL" none [] ]

/-- A well-formed RBS document (claim C2's witness): one signal, one PDU
with one mapped signal, one compu method with one scale, and a signal
resolved through the direct compu-method reference. -/
def c2goodDoc : Elem :=
  .mk "AUTOSAR" none [
    .mk "I-SIGNAL" none [
      .mk "SHORT-NAME" (some "Sig_A") [],
      .mk "SW-DATA-DEF-PROPS" none [
        .mk "COMPU-METHOD-REF" (some "/Pkg/CM_A") [] ] ],
    .mk "COMPU-METHOD" none [
      .mk "SHORT-NAME" (some "CM_A") [],
      .mk "COMPU-INTERNAL-TO-PHYS" none [
        .mk "COMPU-SCALES" none [
          .mk "COMPU-SCALE" none [
            .mk "LOWER-LIMIT" (some "3") [] ] ] ] ],
    .mk "I-SIGNAL-I-PDU" none [
      .mk "SHORT-NAME" (some "Pdu_10") [],
      .mk "I-SIGNAL-TO-PDU-MAPPINGS" none [
        .mk "I-SIGNAL-TO-I-PDU-MAPPING" none [
          .mk "I-SIGNAL-REF" (some "/Pkg/Sig_A") [],
          .mk "START-POSITION" (some "0") [] ] ] ] ]

/-- A service document with a service-interface deployment that lacks its
`SHORT-NAME` child (claim C4's witness). -/
def c4doc : Elem :=
  .mk "AUTOSAR" none [ .mk "SOMEIP-SERVICE-INTERFACE-DEPLOYMENT" none [] ]

/-- A service document whose second deployment lacks its `SHORT-NAME` child
while the first deployment carries an event deployment whose `EVENT-ID`
element is empty (text `None`): processing the first deployment already
raises `TypeError` in `','.join`, before the missing short name is ever
reached (claim C4's counterexample). -/
def c4badDoc : Elem :=
  .mk "AUTOSAR" none [
    .mk "SOMEIP-SERVICE-INTERFACE-DEPLOYMENT" none [
      .mk "SHORT-NAME" (some "A") [],
      .mk "EVENT-DEPLOYMENTS" none [
        .mk "SOMEIP-EVENT-DEPLOYMENT" none [
          .mk "EVENT-ID" none [] ] ] ],
    .mk "SOMEIP-SERVICE-INTERFACE-DEPLOYMENT" none [] ]

/-- A document with one compu method with four scales, lower limits `16`,
`-1`, `١٦` (Arabic-Indic decimal digits, value 16) and `²` (superscript
two: `isdigit` true, `int()` raises) — claim C5's witness. -/
def c5doc : Elem :=
  .mk "AUTOSAR" none [
    .mk "COMPU-METHOD" none [
      .mk "SHORT-NAME" (some "M") [],
      .mk "COMPU-INTERNAL-TO-PHYS" none [
        .mk "COMPU-SCALES" none [
          .mk "COMPU-SCALE" none [
            .mk "LOWER-LIMIT" (some "16") [],
            .mk "COMPU-CONST" none [ .mk "VT" (some "On") [] ] ],
          .mk "COMPU-SCALE" none [
            .mk "LOWER-LIMIT" (some "-1") [] ],
          .mk "COMPU-SCALE" none [
            .mk "LOWER-LIMIT" (some "١٦") [] ],
          .mk "COMPU-SCALE" none [
            .mk "LOWER-LIMIT" (some "²") [] ] ] ] ] ]

/-- The compu-method entries the embedding computes for `c5doc`. -/
def c5cms : List CompuEntry :=
  [{ signal_name := some "M", raw_value := "16", hex_value := "0x10",
     description := some "On" },
   { signal_name := some "M", raw_value := "-1", hex_value := "0x0",
     description := some "No Description" },
   { signal_name := some "M", raw_value := "١٦", hex_value := "0x10",
     description := some "No Description" },
   { signal_name := some "M", raw_value := "²", hex_value := "0x0",
     description := some "No Description" }]

/-- A service document with two service-interface deployments whose short
names `Foo_Bar` and `FooBar` normalize to the same key `foobar` (claim C6's
witness). -/
def c6doc : Elem :=
  .mk "AUTOSAR" none [
    .mk "SOMEIP-SERVICE-INTERFACE-DEPLOYMENT" none [
      .mk "SHORT-NAME" (some "Foo_Bar") [],
      .mk "SERVICE-INTERFACE-ID" (some "1") [] ],
    .mk "SOMEIP-SERVICE-INTERFACE-DEPLOYMENT" none [
      .mk "SHORT-NAME" (some "FooBar") [],
      .mk "SERVICE-INTERFACE-ID" (some "2") [] ] ]

def c6rec1 : SRecord :=
  { service_interface := "Foo_Bar", service_id := some "1", event_ids := "" }

def c6rec2 : SRecord :=
  { service_interface := "FooBar", service_id := some "2", event_ids := "" }

/-- An RBS document with one PDU whose two mappings reference signals whose
paths end in the same last segment `S` (claim C9's witness). -/
def c9doc : Elem :=
  .mk "AUTOSAR" none [
    .mk "I-SIGNAL-I-PDU" none [
      .mk "SHORT-NAME" (some "P") [],
      .mk "I-SIGNAL-TO-PDU-MAPPINGS" none [
        .mk "I-SIGNAL-TO-I-PDU-MAPPING" none [
          .mk "I-SIGNAL-REF" (some "/A/S") [] ],
        .mk "I-SIGNAL-TO-I-PDU-MAPPING" none [
          .mk "I-SIGNAL-REF" (some "/B/S") [] ] ] ] ]

/-- The record the embedding computes for the PDU `P` of `c9doc`: one
signals entry, but `total_signals = 2`. -/
def c9rec : PduRecord :=
  { length := some "0", cycle_time := "0.0",
    signals := [("S",
      [("S_value", PyVal.int 0), ("S_Byte_order", PyVal.str "Unknown"),
       ("S_start_bit", PyVal.int (-1)), ("S_len", PyVal.str "0")])],
    total_signals := 2 }

/-- A signal-to-PDU mapping element with no `I-SIGNAL-REF` child (claim
C10's witness). -/
def c10mapping : Elem :=
  .mk "I-SIGNAL-TO-I-PDU-MAPPING" none [ .mk "START-POSITION" (some "3") [] ]

/-! ### Association-list (Python dict) lemmas -/

theorem pyGet?_insert_self [DecidableEq κ] (k : κ) (v : β) (d : PyDict κ β) :
    pyGet? k (pyInsert k v d) = some v := by
  induction d with
  | nil => simp [pyInsert, pyGet?]
  | cons hd tl ih =>
    obtain ⟨k', v'⟩ := hd
    by_cases h : k' = k
    · subst h; simp [pyInsert, pyGet?]
    · simp [pyInsert, pyGet?, h, ih]

theorem pyGet?_insert_ne [DecidableEq κ] {k k' : κ} (h : k' ≠ k) (v : β) (d : PyDict κ β) :
    pyGet? k (pyInsert k' v d) = pyGet? k d := by
  induction d with
  | nil => simp [pyInsert, pyGet?, h]
  | cons hd tl ih =>
    obtain ⟨k'', v''⟩ := hd
    by_cases h2 : k'' = k'
    · subst h2; simp [pyInsert, pyGet?, h]
    · by_cases h3 : k'' = k
      · subst h3; simp [pyInsert, pyGet?, h2]
      · simp [pyInsert, pyGet?, h2, h3, ih]

theorem pyKeys_insert_of_mem [DecidableEq κ] {k : κ} (v : β) :
    ∀ d : PyDict κ β, k ∈ pyKeys d → pyKeys (pyInsert k v d) = pyKeys d
  | [], h => by simp [pyKeys] at h
  | (k', v') :: tl, h => by
    by_cases h2 : k' = k
    · subst h2; simp [pyInsert, pyKeys]
    · have h3 : k ∈ pyKeys tl := by
        simp only [pyKeys, List.map_cons, List.mem_cons] at h
        rcases h with h4 | h4
        · exact absurd h4.symm h2
        · exact h4
      have hrec := pyKeys_insert_of_mem v tl h3
      simp only [pyInsert, if_neg h2, pyKeys, List.map_cons]
      simpa [pyKeys] using hrec

theorem pyKeys_insert_of_not_mem [DecidableEq κ] {k : κ} (v : β) :
    ∀ d : PyDict κ β, ¬ k ∈ pyKeys d → pyKeys (pyInsert k v d) = pyKeys d ++ [k]
  | [], _ => by simp [pyInsert, pyKeys]
  | (k', v') :: tl, h => by
    by_cases h2 : k' = k
    · subst h2; exact absurd (by simp [pyKeys]) h
    · have h3 : ¬ k ∈ pyKeys tl := fun hm => h (by
        simp only [pyKeys, List.map_cons, List.mem_cons]
        exact Or.inr hm)
      have hrec := pyKeys_insert_of_not_mem v tl h3
      simp only [pyInsert, if_neg h2, pyKeys, List.map_cons]
      simpa [pyKeys] using hrec

theorem pyKeys_nodup_insert [DecidableEq κ] (k : κ) (v : β) {d : PyDict κ β}
    (h : (pyKeys d).Nodup) : (pyKeys (pyInsert k v d)).Nodup := by
  by_cases hm : k ∈ pyKeys d
  · rwa [pyKeys_insert_of_mem v d hm]
  · rw [pyKeys_insert_of_not_mem v d hm]
    simpa [List.nodup_append] using ⟨h, hm⟩

theorem length_pyInsert_le [DecidableEq κ] (k : κ) (v : β) :
    ∀ d : PyDict κ β, (pyInsert k v d).length ≤ d.length + 1
  | [] => by simp [pyInsert]
  | (k', v') :: tl => by
    by_cases h : k' = k
    · simp [pyInsert, h]
    · have := length_pyInsert_le k v tl
      simp only [pyInsert, if_neg h, List.length_cons]
      omega

theorem length_pyInsert_of_mem [DecidableEq κ] {k : κ} (v : β) :
    ∀ d : PyDict κ β, k ∈ pyKeys d → (pyInsert k v d).length = d.length
  | [], h => by simp [pyKeys] at h
  | (k', v') :: tl, h => by
    by_cases h2 : k' = k
    · subst h2; simp [pyInsert]
    · have h3 : k ∈ pyKeys tl := by
        simp only [pyKeys, List.map_cons, List.mem_cons] at h
        rcases h with h4 | h4
        · exact absurd h4.symm h2
        · exact h4
      have := length_pyInsert_of_mem v tl h3
      simp only [pyInsert, if_neg h2, List.length_cons]
      omega

theorem mem_pyKeys_insert_self [DecidableEq κ] (k : κ) (v : β) :
    ∀ d : PyDict κ β, k ∈ pyKeys (pyInsert k v d)
  | [] => by simp [pyInsert, pyKeys]
  | (k', v') :: tl => by
    by_cases h : k' = k
    · subst h; simp [pyInsert, pyKeys]
    · have := mem_pyKeys_insert_self k v tl
      simp only [pyInsert, if_neg h, pyKeys, List.map_cons, List.mem_cons]
      exact Or.inr (by simpa [pyKeys] using this)

theorem mem_pyKeys_insert_of_mem [DecidableEq κ] {k : κ} (k' : κ) (v : β) {d : PyDict κ β}
    (h : k ∈ pyKeys d) : k ∈ pyKeys (pyInsert k' v d) := by
  by_cases hm : k' ∈ pyKeys d
  · rwa [pyKeys_insert_of_mem v d hm]
  · rw [pyKeys_insert_of_not_mem v d hm]; simp [h]

/-- Under distinct keys, a successful lookup pins the number of entries
carrying that key to exactly one. -/
theorem countP_eq_one_of_get [DecidableEq κ] {k : κ} {v : β} :
    ∀ d : PyDict κ β, (pyKeys d).Nodup → pyGet? k d = some v →
      d.countP (fun e => e.1 == k) = 1
  | [], _, hg => by simp [pyGet?] at hg
  | (k', v') :: tl, hnd, hg => by
    have hnd2 : ¬ k' ∈ pyKeys tl ∧ (pyKeys tl).Nodup := by
      simp only [pyKeys, List.map_cons, List.nodup_cons] at hnd
      exact hnd
    by_cases h : k' = k
    · subst h
      have hz : tl.countP (fun e => e.1 == k') = 0 := by
        rw [List.countP_eq_zero]
        intro e he hbeq
        apply hnd2.1
        have he1 : e.1 = k' := by simpa using hbeq
        rw [← he1]
        exact List.mem_map_of_mem Prod.fst he
      simp [List.countP_cons, hz]
    · rw [pyGet?] at hg
      simp only [if_neg h] at hg
      have := countP_eq_one_of_get tl hnd2.2 hg
      simp [List.countP_cons, h, this]

/-! ### Claim C8 -/

/-- C8: the two cycle-time implementations agree; for every string `name`,
`infer_cycle_time_from_name name` equals the second component of
`infer_cycle_time_details name` (both apply the same regular expression and
the same `str(float(g)/1000)` rendering). -/
theorem c8_cycle_time_agree (name : String) :
    infer_cycle_time_from_name name = (infer_cycle_time_details name).2 := by
  unfold infer_cycle_time_from_name infer_cycle_time_details
  cases cycleMatch? name <;> rfl

/-! ### Claim C1 -/

/-- C1 counterexample: on the exact documents of the end-to-end scenario the
pipeline yields the message for `EngineStatus_100` with `service_interface`
equal to the sentinel `"N/A"` — not `"SomeIp_SI_EngineStatus"` as claimed —
because `normalize_name "EngineStatus_100" = "enginestatus100"` while the
service map key is `"enginestatus"`; moreover the signals entry for
`Engine_RPM` carries no compu-method field at all (its keys are exactly the
four `_value`, `_Byte_order`, `_start_bit`, `_len` keys). -/
theorem c1_counterexample :
    parse_service_interfaces c1svcDoc = Except.ok c1sm ∧
    parse_rbs_pdus c1rbsDoc = Except.ok c1pm ∧
    pyGet? ("EngineStatus_100") (generate_pdu_metadata c1sm c1pm).Messages = some c1msg ∧
    c1msg.service_interface = "N/A" ∧
    ¬ c1msg.service_interface = "SomeIp_SI_EngineStatus" ∧
    pyGet? ("Engine_RPM") c1msg.signals = some c1entry ∧
    pyKeys c1entry =
      ["Engine_RPM_value", "Engine_RPM_Byte_order", "Engine_RPM_start_bit", "Engine_RPM_len"] ∧
    pyGet? ("Engine_RPM_compu_method") c1entry = none ∧
    pyGet? ("compu_method") c1entry = none := by
  exact ⟨rfl, rfl, rfl, rfl, by decide, rfl, rfl, rfl, rfl⟩

/-- C1 (amended): on the end-to-end scenario documents the pipeline produces
`{"Messages": {"EngineStatus_100": msg}}` where `msg` has pdu_name
`EngineStatus_100`, service_interface `"N/A"`, service_id `""`, event_ids
`""`, length `"64"`, cycle_time `"0.1"`, total_signals 1, and a signals
entry for `Engine_RPM` carrying value 0, byte order
`MOST-SIGNIFICANT-BYTE-FIRST`, start bit 8 and length `"16"` (and no
compu-method field). -/
theorem c1_amended :
    parse_service_interfaces c1svcDoc = Except.ok c1sm ∧
    parse_rbs_pdus c1rbsDoc = Except.ok c1pm ∧
    generate_pdu_metadata c1sm c1pm = { Messages := [("EngineStatus_100", c1msg)] } := by
  exact ⟨rfl, rfl, rfl⟩

/-! ### Claim C2, counterexample part -/

/-- C2 counterexample: `c2badDoc` is a parseable RBS document (it is a value
of the document type) containing an `I-SIGNAL` with no `SHORT-NAME` child —
neither of the two structural cases the claim allows — yet both
`parse_rbs_pdus` and `extract_signal_compu_methods` raise `AttributeError`
(`.find('SHORT-NAME').text` on `None`, source lines 61 and 150). -/
theorem c2_counterexample :
    parse_rbs_pdus c2badDoc = Except.error PyError.attributeError ∧
    extract_signal_compu_methods c2badDoc = Except.error PyError.attributeError := by
  exact ⟨rfl, rfl⟩

/-! ### Claim C4 -/

/-- If some service-interface element of the list lacks its `SHORT-NAME`
child, the fold over the list fails (with the offending element's
`AttributeError` if reached first, or an earlier element's error). -/
theorem foldServices_error_of_missing_name :
    ∀ (l : List Elem) (m : PyDict String SRecord),
      (∃ si ∈ l, si.findChild "SHORT-NAME" = none) →
      ∃ e, foldServices l m = Except.error e
  | [], _, h => by simp at h
  | hd :: tl, m, h => by
    rcases h with ⟨si, hmem, hbad⟩
    rcases List.mem_cons.mp hmem with rfl | hmem2
    · exact ⟨PyError.attributeError, by simp only [foldServices, buildService, hbad]⟩
    · cases hb : buildService hd with
      | error e => exact ⟨e, by simp only [foldServices, hb]⟩
      | ok kv =>
        rcases foldServices_error_of_missing_name tl (pyInsert kv.1 kv.2 m)
          ⟨si, hmem2, hbad⟩ with ⟨e, he⟩
        exact ⟨e, by simp only [foldServices, hb]; exact he⟩

/-- A list whose every element builds a service record folds successfully. -/
theorem foldServices_ok_of_builds :
    ∀ (l : List Elem) (m : PyDict String SRecord),
      (∀ si ∈ l, ∃ kv, buildService si = Except.ok kv) →
      ∃ m2, foldServices l m = Except.ok m2
  | [], m, _ => ⟨m, rfl⟩
  | hd :: tl, m, h => by
    rcases h hd (List.mem_cons_self hd tl) with ⟨kv, hb⟩
    rcases foldServices_ok_of_builds tl (pyInsert kv.1 kv.2 m)
      (fun si hsi => h si (List.mem_cons_of_mem hd hsi)) with ⟨m2, h2⟩
    exact ⟨m2, by simp only [foldServices, hb]; exact h2⟩

/-- A fold over an appended list whose first part succeeds continues from
the intermediate map. -/
theorem foldServices_append_of_ok :
    ∀ (l1 l2 : List Elem) (m mid : PyDict String SRecord),
      foldServices l1 m = Except.ok mid →
      foldServices (l1 ++ l2) m = foldServices l2 mid
  | [], _, m, mid, h => by
    have hm : m = mid := by simpa [foldServices] using h
    rw [List.nil_append, hm]
  | hd :: tl, l2, m, mid, h => by
    simp only [foldServices, List.cons_append] at h ⊢
    cases hb : buildService hd with
    | error e => rw [hb] at h; cases h
    | ok kv =>
      rw [hb] at h
      have h2 : foldServices tl (pyInsert kv.1 kv.2 m) = Except.ok mid := h
      exact foldServices_append_of_ok tl l2 (pyInsert kv.1 kv.2 m) mid h2

/-- C4 counterexample: the second deployment of `c4badDoc` lacks its
`SHORT-NAME` child, so the claim requires `parse_service_interfaces` to fail
with the MissingFieldError (the `AttributeError` from
`.find('SHORT-NAME').text`); but the first deployment's empty `EVENT-ID`
already raises `TypeError` in `','.join(event_ids)`, so parsing fails with
`TypeError` instead and the deficient element is never reached. -/
theorem c4_counterexample :
    (∃ si ∈ c4badDoc.findallDesc "SOMEIP-SERVICE-INTERFACE-DEPLOYMENT",
      si.findChild "SHORT-NAME" = none) ∧
    parse_service_interfaces c4badDoc = Except.error PyError.typeError ∧
    PyError.typeError ≠ PyError.attributeError := by
  refine ⟨?_, rfl, by decide⟩
  refine ⟨Elem.mk "SOMEIP-SERVICE-INTERFACE-DEPLOYMENT" none [], ?_, rfl⟩
  rw [show c4badDoc.findallDesc "SOMEIP-SERVICE-INTERFACE-DEPLOYMENT" =
    [(c4badDoc.children).get ⟨0, by decide⟩,
      Elem.mk "SOMEIP-SERVICE-INTERFACE-DEPLOYMENT" none []] from rfl]
  exact List.mem_cons_of_mem _ (List.mem_singleton.mpr rfl)

/-- C4 (amended): for every service document containing a
service-interface-deployment element that lacks its short-name child,
`parse_service_interfaces` fails and the error propagates to the caller
with no recovery; the error is the MissingFieldError (the `AttributeError`
from `.find('SHORT-NAME').text`) whenever every deployment before the
deficient one builds its record successfully — otherwise an earlier
deployment's own error (such as the `TypeError` from joining an empty
event id) is raised first. -/
theorem c4_amended (doc : Elem) (sis : List Elem)
    (hsis : sis = doc.findallDesc "SOMEIP-SERVICE-INTERFACE-DEPLOYMENT")
    (h : ∃ si ∈ sis, si.findChild "SHORT-NAME" = none) :
    (∃ e, parse_service_interfaces doc = Except.error e) ∧
    (∀ (i : Nat) (hi : i < sis.length),
      (sis.get ⟨i, hi⟩).findChild "SHORT-NAME" = none →
      (∀ (j : Nat) (hj : j < sis.length), j < i →
        ∃ kv, buildService (sis.get ⟨j, hj⟩) = Except.ok kv) →
      parse_service_interfaces doc = Except.error PyError.attributeError) := by
  have hparse : parse_service_interfaces doc = foldServices sis [] := by
    rw [hsis]
    rfl
  constructor
  · rcases foldServices_error_of_missing_name sis [] h with ⟨e, he⟩
    exact ⟨e, by rw [hparse]; exact he⟩
  · intro i hi hbad hpre
    have hsplit : sis = sis.take i ++ sis.get ⟨i, hi⟩ :: sis.drop (i + 1) := by
      conv_lhs => rw [← List.take_append_drop i sis]
      rw [List.drop_eq_getElem_cons hi]
      rfl
    have hpreok : ∀ si ∈ sis.take i, ∃ kv, buildService si = Except.ok kv := by
      intro si hsi
      rcases List.mem_iff_getElem.mp hsi with ⟨j, hj, hget⟩
      have hji : j < i := lt_of_lt_of_le hj (List.length_take_le i sis)
      have hjlen : j < sis.length := by
        have := List.length_take_le i sis
        have h2 : (sis.take i).length = min i sis.length := List.length_take i sis
        omega
      rcases hpre j hjlen hji with ⟨kv, hb⟩
      refine ⟨kv, ?_⟩
      have hval : (sis.take i)[j] = sis.get ⟨j, hjlen⟩ := List.getElem_take sis
      rw [← hget, hval]
      exact hb
    rcases foldServices_ok_of_builds (sis.take i) [] hpreok with ⟨mid, hmid⟩
    rw [hparse]
    conv_lhs => rw [hsplit]
    rw [foldServices_append_of_ok (sis.take i) (sis.get ⟨i, hi⟩ :: sis.drop (i + 1)) [] mid hmid]
    simp only [foldServices, buildService, hbad]

/-- C4 (amended) witness: `c4doc`'s only deployment lacks `SHORT-NAME`; no
deployment precedes it, so `parse_service_interfaces` fails with precisely
the `AttributeError`. -/
theorem c4_amended_witness :
    (∃ si ∈ c4doc.findallDesc "SOMEIP-SERVICE-INTERFACE-DEPLOYMENT",
      si.findChild "SHORT-NAME" = none) ∧
    parse_service_interfaces c4doc = Except.error PyError.attributeError := by
  have hmem : (Elem.mk "SOMEIP-SERVICE-INTERFACE-DEPLOYMENT" none []) ∈
      c4doc.findallDesc "SOMEIP-SERVICE-INTERFACE-DEPLOYMENT" := by
    rw [show c4doc.findallDesc "SOMEIP-SERVICE-INTERFACE-DEPLOYMENT" =
      [Elem.mk "SOMEIP-SERVICE-INTERFACE-DEPLOYMENT" none []] from rfl]
    exact List.mem_singleton.mpr rfl
  have h := c4_amended c4doc (c4doc.findallDesc "SOMEIP-SERVICE-INTERFACE-DEPLOYMENT") rfl
    ⟨_, hmem, rfl⟩
  exact ⟨⟨_, hmem, rfl⟩,
    h.2 0 (by decide) rfl (fun j hj hj0 => absurd hj0 (Nat.not_lt_zero j))⟩

/-! ### Claim C10 -/

/-- C10: a signal-to-PDU mapping element that lacks an `I-SIGNAL-REF` child
is skipped entirely by the mapping loop of `parse_rbs_pdus`: deleting it
from the mapping list leaves the loop's result (signals dict and
total-signals counter, or error) unchanged — so it contributes no signals
entry, does not increment `total_signals`, and raises no error. -/
theorem c10_skip_refless (slm : PyDict (Option String) (Option String))
    (pre post : List Elem) (m : Elem)
    (hm : m.findChild "I-SIGNAL-REF" = none)
    (sigs : PyDict String (PyDict String PyVal)) (cnt : Nat) :
    processMappings slm (pre ++ m :: post) sigs cnt =
      processMappings slm (pre ++ post) sigs cnt := by
  induction pre generalizing sigs cnt with
  | nil => simp only [List.nil_append, processMappings, hm]
  | cons hd tl ih =>
    simp only [List.cons_append, processMappings]
    cases hr : hd.findChild "I-SIGNAL-REF" with
    | none => exact ih _ _
    | some r =>
      cases hb : buildSigEntry slm hd r with
      | error e => simp only [hb]
      | ok se => simp only [hb]; exact ih _ _

/-- C10 witness: the refless mapping `c10mapping` is skipped by the loop. -/
theorem c10_witness :
    c10mapping.findChild "I-SIGNAL-REF" = none ∧
    processMappings [] [c10mapping] [] 0 = processMappings [] [] [] 0 :=
  ⟨rfl, c10_skip_refless [] [] [] c10mapping rfl [] 0⟩

/-! ### Claim C5 -/

/-- Every entry appended by the scale loop keeps the hex/raw relation. -/
theorem buildCompuScales_hex (compu_name : Option String) :
    ∀ (scales : List Elem) (acc out : List CompuEntry),
      buildCompuScales compu_name scales acc = Except.ok out →
      (∀ e ∈ acc, e.hex_value = pyHexFormat e.raw_value) →
      ∀ e ∈ out, e.hex_value = pyHexFormat e.raw_value
  | [], acc, out, hok, hacc => by
    simp only [buildCompuScales] at hok
    cases hok
    exact hacc
  | scale :: rest, acc, out, hok, hacc => by
    simp only [buildCompuScales] at hok
    cases hll : textOrDefault (scale.findChild "LOWER-LIMIT") "0" with
    | none => rw [hll] at hok; cases hok
    | some ll =>
      rw [hll] at hok
      refine buildCompuScales_hex compu_name rest _ out hok ?_
      intro e he
      rcases List.mem_append.mp he with he2 | he2
      · exact hacc e he2
      · rw [List.mem_singleton.mp he2]

/-- Every entry collected by the compu-method loop keeps the hex/raw
relation. -/
theorem foldCompuMethods_hex :
    ∀ (cms : List Elem) (acc out : List CompuEntry),
      foldCompuMethods cms acc = Except.ok out →
      (∀ e ∈ acc, e.hex_value = pyHexFormat e.raw_value) →
      ∀ e ∈ out, e.hex_value = pyHexFormat e.raw_value
  | [], acc, out, hok, hacc => by
    simp only [foldCompuMethods] at hok
    cases hok
    exact hacc
  | cm :: rest, acc, out, hok, hacc => by
    simp only [foldCompuMethods] at hok
    cases hsn : cm.findChild "SHORT-NAME" with
    | none => rw [hsn] at hok; cases hok
    | some sn =>
      rw [hsn] at hok
      have hok2 : (match buildCompuScales sn.text (scalesOf cm) acc with
          | Except.error er => Except.error er
          | Except.ok acc2 => foldCompuMethods rest acc2) = Except.ok out := hok
      cases hb : buildCompuScales sn.text (scalesOf cm) acc with
      | error e => rw [hb] at hok2; cases hok2
      | ok acc2 =>
        rw [hb] at hok2
        exact foldCompuMethods_hex rest acc2 out hok2
          (buildCompuScales_hex sn.text (scalesOf cm) acc acc2 hb hacc)

/-- A string whose base-10 decimal accumulation succeeds consists of
decimal digits only. -/
theorem pyDecimalAcc?_dig :
    ∀ (l : List Char) (a n : Nat), pyDecimalAcc? l a = some n →
      ∀ c ∈ l, (pyDecimalVal? c).isSome = true
  | [], _, _, _, _, hc => by cases hc
  | c0 :: tl, a, n, h, c, hc => by
    unfold pyDecimalAcc? at h
    cases hv : pyDecimalVal? c0 with
    | none => rw [hv] at h; cases h
    | some d =>
      rw [hv] at h
      rcases List.mem_cons.mp hc with rfl | h2
      · rw [hv]; rfl
      · exact pyDecimalAcc?_dig tl (10 * a + d) n h c h2

/-- The source's guarded-and-caught hex computation, in the claim's terms:
`"0x"` plus upper-case hex of the accumulated decimal value when the text
is non-empty and all decimal digits, `"0x0"` otherwise — whether `isdigit`
rejected the text or `int()` raised on a digit-only character. -/
theorem pyHexFormat_cases (raw : String) :
    pyHexFormat raw =
      match raw.data, pyDecimalAcc? raw.data 0 with
      | [], _ => "0x0"
      | _ :: _, some n => "0x" ++ natToHexUpper n
      | _ :: _, none => "0x0" := by
  unfold pyHexFormat pyIsDigit
  cases hd : raw.data with
  | nil => simp
  | cons c tl =>
    cases hacc : pyDecimalAcc? (c :: tl) 0 with
    | none =>
      by_cases hcond : (decide (c :: tl ≠ []) && (c :: tl).all pyCharIsDigit) = true
      · rw [if_pos hcond]
      · rw [if_neg hcond]
    | some n =>
      have hcond : (decide (c :: tl ≠ []) && (c :: tl).all pyCharIsDigit) = true := by
        have hall : (c :: tl).all pyCharIsDigit = true := by
          rw [List.all_eq_true]
          intro x hx
          have hx2 := pyDecimalAcc?_dig (c :: tl) 0 n hacc x hx
          unfold pyCharIsDigit
          rw [hx2]
          rfl
        rw [hall]
        rfl
      rw [if_pos hcond]

/-- C5: for every compu-scale entry collected by
`extract_signal_compu_methods`, `hex_value` equals `"0x"` followed by the
upper-case hexadecimal form of the lower-limit's integer value when the
lower-limit text consists only of decimal digits (the Unicode decimal
digits `int()` accepts, e.g. `"16"` or `"١٦"`), and equals `"0x0"` in every
other case — a negative number's leading `'-'` fails `isdigit`, and a
digit-only character such as `'²'` passes `isdigit` but makes `int()` raise
the caught `ValueError`. -/
theorem c5_hex_value (doc : Elem) (cms : List CompuEntry)
    (sm : PyDict (Option String) String)
    (hok : extract_signal_compu_methods doc = Except.ok (cms, sm)) :
    ∀ e ∈ cms,
      e.hex_value =
        match e.raw_value.data, pyDecimalAcc? e.raw_value.data 0 with
        | [], _ => "0x0"
        | _ :: _, some n => "0x" ++ natToHexUpper n
        | _ :: _, none => "0x0" := by
  unfold extract_signal_compu_methods at hok
  cases hcm : foldCompuMethods (doc.findallDesc "COMPU-METHOD") [] with
  | error e => rw [hcm] at hok; cases hok
  | ok compu_methods =>
    rw [hcm] at hok
    have hok2 : (match foldSignalCompu compu_methods (doc.findallDesc "I-SIGNAL") [] with
        | Except.error e => Except.error e
        | Except.ok signal_compu_map => Except.ok (compu_methods, signal_compu_map)) =
        Except.ok (cms, sm) := hok
    cases hsm : foldSignalCompu compu_methods (doc.findallDesc "I-SIGNAL") [] with
    | error e => rw [hsm] at hok2; cases hok2
    | ok sm2 =>
      rw [hsm] at hok2
      have hpair : compu_methods = cms ∧ sm2 = sm := by
        simpa only [Except.ok.injEq, Prod.mk.injEq] using hok2
      intro e he
      rw [← hpair.1] at he
      rw [foldCompuMethods_hex (doc.findallDesc "COMPU-METHOD") [] compu_methods hcm
        (by intro e2 he2; cases he2) e he]
      exact pyHexFormat_cases e.raw_value

/-- C5 witness: on `c5doc` the four collected entries have raw values
`"16"`, `"-1"`, `"١٦"` and `"²"`, whose hex values — as given by the
theorem — evaluate to `"0x10"`, `"0x0"`, `"0x10"` (Arabic-Indic sixteen)
and `"0x0"` (`isdigit`-true superscript on which `int()` raises). -/
theorem c5_witness :
    extract_signal_compu_methods c5doc = Except.ok (c5cms, []) ∧
    ((c5cms.get ⟨0, by decide⟩).raw_value = "16" ∧
      (c5cms.get ⟨0, by decide⟩).hex_value = "0x10") ∧
    ((c5cms.get ⟨1, by decide⟩).raw_value = "-1" ∧
      (c5cms.get ⟨1, by decide⟩).hex_value = "0x0") ∧
    ((c5cms.get ⟨2, by decide⟩).raw_value = "١٦" ∧
      (c5cms.get ⟨2, by decide⟩).hex_value = "0x10") ∧
    ((c5cms.get ⟨3, by decide⟩).raw_value = "²" ∧
      (c5cms.get ⟨3, by decide⟩).hex_value = "0x0") := by
  refine ⟨rfl, ⟨rfl, ?_⟩, ⟨rfl, ?_⟩, ⟨rfl, ?_⟩, ⟨rfl, ?_⟩⟩
  · have h := c5_hex_value c5doc c5cms [] rfl (c5cms.get ⟨0, by decide⟩)
      (List.get_mem c5cms 0 (by decide))
    exact h
  · have h := c5_hex_value c5doc c5cms [] rfl (c5cms.get ⟨1, by decide⟩)
      (List.get_mem c5cms 1 (by decide))
    exact h
  · have h := c5_hex_value c5doc c5cms [] rfl (c5cms.get ⟨2, by decide⟩)
      (List.get_mem c5cms 2 (by decide))
    exact h
  · have h := c5_hex_value c5doc c5cms [] rfl (c5cms.get ⟨3, by decide⟩)
      (List.get_mem c5cms 3 (by decide))
    exact h

/-! ### Claim C6 -/

/-- If no element of the list builds a record under key `k`, the fold leaves
the value stored under `k` unchanged. -/
theorem foldServices_get_of_no_key (k : String) :
    ∀ (l : List Elem) (m m' : PyDict String SRecord),
      foldServices l m = Except.ok m' →
      (∀ si ∈ l, ∀ kv : String × SRecord, buildService si = Except.ok kv → kv.1 ≠ k) →
      pyGet? k m' = pyGet? k m
  | [], m, m', hok, _ => by
    simp only [foldServices] at hok; cases hok; rfl
  | si :: tl, m, m', hok, hno => by
    simp only [foldServices] at hok
    cases hb : buildService si with
    | error e => rw [hb] at hok; cases hok
    | ok kv =>
      rw [hb] at hok
      have hne : kv.1 ≠ k := hno si (List.mem_cons_self si tl) kv hb
      have hrec := foldServices_get_of_no_key k tl (pyInsert kv.1 kv.2 m) m' hok
        (fun si2 h2 kv2 hb2 => hno si2 (List.mem_cons_of_mem si h2) kv2 hb2)
      rw [hrec, pyGet?_insert_ne hne]

/-- A successful fold over an appended list passes through an intermediate
map. -/
theorem foldServices_append :
    ∀ (l1 l2 : List Elem) (m m' : PyDict String SRecord),
      foldServices (l1 ++ l2) m = Except.ok m' →
      ∃ mid, foldServices l1 m = Except.ok mid ∧ foldServices l2 mid = Except.ok m'
  | [], _, m, _, hok => ⟨m, rfl, hok⟩
  | si :: tl, l2, m, m', hok => by
    simp only [List.cons_append, foldServices] at hok ⊢
    cases hb : buildService si with
    | error e => rw [hb] at hok; cases hok
    | ok kv =>
      rw [hb] at hok
      rcases foldServices_append tl l2 (pyInsert kv.1 kv.2 m) m' hok with ⟨mid, h1, h2⟩
      exact ⟨mid, h1, h2⟩

/-- The fold preserves key distinctness. -/
theorem foldServices_nodup :
    ∀ (l : List Elem) (m m' : PyDict String SRecord),
      foldServices l m = Except.ok m' → (pyKeys m).Nodup → (pyKeys m').Nodup
  | [], _, _, hok, hnd => by simp only [foldServices] at hok; cases hok; exact hnd
  | si :: tl, m, m', hok, hnd => by
    simp only [foldServices] at hok
    cases hb : buildService si with
    | error e => rw [hb] at hok; cases hok
    | ok kv =>
      rw [hb] at hok
      exact foldServices_nodup tl _ m' hok (pyKeys_nodup_insert kv.1 kv.2 hnd)

/-- C6: if two service-interface-deployment elements (positions `i < j` in
document order) build records under the same normalized key `k`, and `j` is
the last position whose record carries `k`, then the map returned by
`parse_service_interfaces` contains exactly one entry under `k` and that
entry is the record built from the later element — last write wins, no
error, no merge. -/
theorem c6_last_write_wins (doc : Elem) (m : PyDict String SRecord)
    (hok : parse_service_interfaces doc = Except.ok m)
    (sis : List Elem)
    (hsis : sis = doc.findallDesc "SOMEIP-SERVICE-INTERFACE-DEPLOYMENT")
    (i j : Nat) (hij : i < j) (hj : j < sis.length)
    (k : String) (vi vj : SRecord)
    (_hbi : buildService (sis.get ⟨i, Nat.lt_trans hij hj⟩) = Except.ok (k, vi))
    (hbj : buildService (sis.get ⟨j, hj⟩) = Except.ok (k, vj))
    (hlast : ∀ (l : Nat) (hl : l < sis.length), j < l →
      ∀ kv : String × SRecord, buildService (sis.get ⟨l, hl⟩) = Except.ok kv → kv.1 ≠ k) :
    pyGet? k m = some vj ∧ m.countP (fun e => e.1 == k) = 1 := by
  unfold parse_service_interfaces at hok
  rw [← hsis] at hok
  have hsplit : sis = sis.take j ++ sis.get ⟨j, hj⟩ :: sis.drop (j + 1) := by
    conv_lhs => rw [← List.take_append_drop j sis]
    rw [List.drop_eq_getElem_cons hj]
    rfl
  rw [hsplit] at hok
  rcases foldServices_append _ _ _ _ hok with ⟨mid, hpre, hrest⟩
  simp only [foldServices] at hrest
  rw [hbj] at hrest
  have hnokey : ∀ si ∈ sis.drop (j + 1), ∀ kv : String × SRecord,
      buildService si = Except.ok kv → kv.1 ≠ k := by
    intro si hmem kv hb
    rcases List.mem_iff_getElem.mp hmem with ⟨idx, hidx, hgot⟩
    have hlen : j + 1 + idx < sis.length := by
      have := List.length_drop (j + 1) sis
      omega
    have hgot2 : sis.get ⟨j + 1 + idx, hlen⟩ = si := by
      rw [← hgot]
      show sis[j + 1 + idx] = (sis.drop (j + 1))[idx]
      rw [List.getElem_drop]
    exact hlast (j + 1 + idx) hlen (by omega) kv (by rwa [hgot2])
  have hget : pyGet? k m = some vj := by
    rw [foldServices_get_of_no_key k _ _ _ hrest hnokey, pyGet?_insert_self]
  refine ⟨hget, ?_⟩
  have hnd : (pyKeys m).Nodup := by
    rw [hsplit] at hsis
    have hall : foldServices sis [] = Except.ok m := by rw [hsplit]; exact hok
    exact foldServices_nodup sis [] m hall (by simp [pyKeys])
  exact countP_eq_one_of_get m hnd hget

/-- C6 witness: in `c6doc` the two deployments `Foo_Bar` (record `c6rec1`)
and `FooBar` (record `c6rec2`) both normalize to `foobar`; the parsed map
holds exactly one entry under `foobar`, equal to the later record. -/
theorem c6_witness :
    parse_service_interfaces c6doc = Except.ok ([("foobar", c6rec2)]) ∧
    pyGet? ("foobar") [("foobar", c6rec2)] = some c6rec2 ∧
    List.countP (fun e => e.1 == "foobar") [("foobar", c6rec2)] = 1 := by
  have hlen : (c6doc.findallDesc "SOMEIP-SERVICE-INTERFACE-DEPLOYMENT").length = 2 := rfl
  have h := c6_last_write_wins c6doc [("foobar", c6rec2)] rfl
    (c6doc.findallDesc "SOMEIP-SERVICE-INTERFACE-DEPLOYMENT") rfl
    0 1 (by omega) (by omega) "foobar" c6rec1 c6rec2 rfl rfl
    (fun l hl hgt kv hb => absurd (by omega : l < 2) (by omega))
  exact ⟨rfl, h.1, h.2⟩

/-! ### Claim C7 -/

theorem toNat_ofNat_small (n : Nat) (h : n < 55296) : (Char.ofNat n).toNat = n := by
  have hv : Nat.isValidChar n := Or.inl h
  simp [Char.ofNat, hv, Char.ofNatAux, Char.toNat, UInt32.toNat, BitVec.toNat_ofNatLt]

/-- A lower-cased character is never in the upper-case ASCII range. -/
theorem pyLowerChar_not_upper (c : Char) :
    ¬ (65 ≤ (pyLowerChar c).toNat ∧ (pyLowerChar c).toNat ≤ 90) := by
  unfold pyLowerChar
  by_cases h : (65 ≤ c.toNat && c.toNat ≤ 90) = true
  · rw [if_pos h]
    have h2 : 65 ≤ c.toNat ∧ c.toNat ≤ 90 := by simpa using h
    rw [toNat_ofNat_small _ (by omega)]
    omega
  · rw [if_neg h]
    have h2 : ¬ (65 ≤ c.toNat ∧ c.toNat ≤ 90) := by simpa using h
    omega

theorem pyLowerChar_eq_self_of_not_upper (c : Char)
    (h : ¬ (65 ≤ c.toNat ∧ c.toNat ≤ 90)) : pyLowerChar c = c := by
  unfold pyLowerChar
  rw [if_neg (by simpa using h)]

theorem pyLowerChar_idem (c : Char) : pyLowerChar (pyLowerChar c) = pyLowerChar c :=
  pyLowerChar_eq_self_of_not_upper _ (pyLowerChar_not_upper c)

/-- Only the underscore lower-cases to an underscore. -/
theorem eq_underscore_of_pyLowerChar (c : Char) (h : pyLowerChar c = '_') : c = '_' := by
  by_cases hu : (65 ≤ c.toNat && c.toNat ≤ 90) = true
  · exfalso
    have h2 : 65 ≤ c.toNat ∧ c.toNat ≤ 90 := by simpa using hu
    unfold pyLowerChar at h
    rw [if_pos hu] at h
    have h3 : (Char.ofNat (c.toNat + 32)).toNat = c.toNat + 32 :=
      toNat_ofNat_small _ (by omega)
    rw [h] at h3
    have h4 : ('_' : Char).toNat = 95 := rfl
    omega
  · unfold pyLowerChar at h
    rwa [if_neg hu] at h

theorem mem_of_underscore_mem_pyLower (l : List Char) (h : '_' ∈ pyLower l) : '_' ∈ l := by
  rcases List.mem_map.mp h with ⟨c, hc, hlc⟩
  rwa [eq_underscore_of_pyLowerChar c hlc] at hc

theorem pyLower_no_upper (l : List Char) (c : Char) (hc : c ∈ pyLower l)
    (h : 65 ≤ c.toNat ∧ c.toNat ≤ 90) : False := by
  rcases List.mem_map.mp hc with ⟨c0, _, hlc⟩
  exact pyLowerChar_not_upper c0 (by rw [hlc]; exact h)

/-- Removing every occurrence of a single character leaves none behind. -/
theorem not_mem_removeSubAux_single (a : Char) :
    ∀ (fuel : Nat) (l : List Char), l.length ≤ fuel → a ∉ removeSubAux [a] fuel l
  | _, [], _ => by simp [removeSubAux]
  | 0, c :: rest, h => by simp at h
  | fuel + 1, c :: rest, h => by
    by_cases hac : a = c
    · subst hac
      have hcond : ([a] ≠ [] ∧ leadsWith [a] (a :: rest) = true) := by simp [leadsWith]
      simp only [removeSubAux]
      rw [if_pos hcond]
      simpa using not_mem_removeSubAux_single a fuel rest (by simpa using h)
    · have hcond : ¬ ([a] ≠ [] ∧ leadsWith [a] (c :: rest) = true) := by
        simp [leadsWith, hac]
      simp only [removeSubAux]
      rw [if_neg hcond]
      intro hmem
      rcases List.mem_cons.mp hmem with h1 | h1
      · exact hac h1
      · exact not_mem_removeSubAux_single a fuel rest (by simpa using h) h1

/-- A replace whose pattern's first character never occurs is the
identity. -/
theorem removeSubAux_no_head (p0 : Char) (ps : List Char) :
    ∀ (fuel : Nat) (l : List Char), l.length ≤ fuel → p0 ∉ l →
      removeSubAux (p0 :: ps) fuel l = l
  | _, [], _, _ => by simp [removeSubAux]
  | 0, c :: rest, h, _ => by simp at h
  | fuel + 1, c :: rest, h, hnm => by
    have hne : p0 ≠ c := fun he => hnm (by rw [he]; exact List.mem_cons_self c rest)
    have hcond : ¬ ((p0 :: ps) ≠ [] ∧ leadsWith (p0 :: ps) (c :: rest) = true) := by
      simp [leadsWith, hne]
    simp only [removeSubAux]
    rw [if_neg hcond]
    rw [removeSubAux_no_head p0 ps fuel rest (by simpa using h)
      (fun hm => hnm (List.mem_cons_of_mem c hm))]

theorem removeSub_no_head (p0 : Char) (ps : List Char) (l : List Char) (hnm : p0 ∉ l) :
    removeSub (p0 :: ps) l = l :=
  removeSubAux_no_head p0 ps l.length l (le_refl _) hnm

theorem pyLower_idem (l : List Char) : pyLower (pyLower l) = pyLower l := by
  unfold pyLower
  rw [List.map_map]
  exact List.map_congr_left (fun c _ => pyLowerChar_idem c)

/-- Any string of the shape `normalize_name` produces is a fixed point of
`normalize_name`. -/
theorem normalize_name_fixed (l : List Char) :
    normalize_name ⟨pyLower (removeSub ("_".data) l)⟩ = ⟨pyLower (removeSub ("_".data) l)⟩ := by
  have hu : '_' ∉ pyLower (removeSub ("_".data) l) := by
    intro hm
    have h1 := mem_of_underscore_mem_pyLower _ hm
    exact not_mem_removeSubAux_single '_' l.length l (le_refl _) h1
  have hS : 'S' ∉ pyLower (removeSub ("_".data) l) := by
    intro hm
    exact pyLower_no_upper _ 'S' hm (by decide)
  show (⟨pyLower (removeSub ("_".data) (removeSub ("_SI".data)
    (removeSub ("SomeIp".data) (pyLower (removeSub ("_".data) l))))) ⟩ : String) = _
  rw [show ("SomeIp".data) = 'S' :: "omeIp".data from rfl,
      removeSub_no_head 'S' _ _ hS,
      show ("_SI".data) = '_' :: "SI".data from rfl,
      removeSub_no_head '_' _ _ hu,
      show ("_".data) = '_' :: ([] : List Char) from rfl,
      removeSub_no_head '_' _ _ hu,
      pyLower_idem]

/-- C7: name normalization is idempotent — for every string `x`,
`normalize_name (normalize_name x) = normalize_name x`. -/
theorem c7_normalize_idempotent (x : String) :
    normalize_name (normalize_name x) = normalize_name x :=
  normalize_name_fixed (removeSub ("_SI".data) (removeSub ("SomeIp".data) x.data))

/-! ### Claim C3 -/

theorem takeWhile_append_stop (p : Char → Bool) :
    ∀ (xs : List Char) (y : Char) (ys : List Char),
      (∀ x ∈ xs, p x = true) → p y = false →
      (xs ++ y :: ys).takeWhile p = xs
  | [], y, ys, _, hy => by simp [List.takeWhile_cons, hy]
  | x :: xs, y, ys, hall, hy => by
    have hx : p x = true := hall x (List.mem_cons_self x xs)
    simp only [List.cons_append, List.takeWhile_cons, hx, if_true]
    rw [takeWhile_append_stop p xs y ys (fun a ha => hall a (List.mem_cons_of_mem x ha)) hy]

theorem mem_takeWhile_pred (p : Char → Bool) :
    ∀ (l : List Char) (x : Char), x ∈ l.takeWhile p → p x = true
  | [], x, h => by simp [List.takeWhile] at h
  | a :: l, x, h => by
    by_cases ha : p a = true
    · rw [List.takeWhile_cons, if_pos ha] at h
      rcases List.mem_cons.mp h with rfl | h2
      · exact ha
      · exact mem_takeWhile_pred p l x h2
    · rw [List.takeWhile_cons, if_neg ha] at h
      cases h

theorem exists_of_getLast? :
    ∀ (l : List Char) (a : Char), l.getLast? = some a → ∃ l', l = l' ++ [a]
  | [], a, h => by simp at h
  | [x], a, h => by
    have hx : x = a := by simpa [List.getLast?] using h
    exact ⟨[], by rw [hx]; rfl⟩
  | x :: y :: rest, a, h => by
    have h2 : (y :: rest).getLast? = some a := by rwa [List.getLast?_cons_cons] at h
    rcases exists_of_getLast? (y :: rest) a h2 with ⟨l', hl⟩
    exact ⟨x :: l', by rw [List.cons_append, ← hl]⟩

/-- A decomposition as prefix, underscore, digit run determines the longest
trailing digit run. -/
theorem trailingDigits_of_decomp (l : List Char) (p d : List Char)
    (hl : l = p ++ '_' :: d) (hall : d.all isAsciiDigit = true) :
    trailingDigits l = d := by
  unfold trailingDigits
  rw [hl, List.reverse_append, List.reverse_cons, List.append_assoc]
  have hd : ∀ x ∈ d.reverse, isAsciiDigit x = true := by
    intro x hx
    exact List.all_eq_true.mp hall x (List.mem_reverse.mp hx)
  rw [List.singleton_append, takeWhile_append_stop isAsciiDigit d.reverse '_' p.reverse hd
    (by decide), List.reverse_reverse]

/-- A decomposition makes the end-anchored pattern match with the same
group. -/
theorem cycleMatchL?_of_decomp (l : List Char) (p d : List Char)
    (hl : l = p ++ '_' :: d) (hall : d.all isAsciiDigit = true)
    (h2 : 2 ≤ d.length) (h4 : d.length ≤ 4) :
    cycleMatchL? l = some d := by
  have htd := trailingDigits_of_decomp l p d hl hall
  have hpre : l.take (l.length - d.length) = p ++ ['_'] := by
    rw [hl]
    have hlen : (p ++ '_' :: d).length - d.length = (p ++ ['_']).length := by
      simp only [List.length_append, List.length_cons, List.length_singleton, List.length_nil]
      omega
    rw [hlen, show p ++ '_' :: d = (p ++ ['_']) ++ d by simp, List.take_left]
  unfold cycleMatchL?
  rw [htd, hpre, List.getLast?_concat]
  rw [if_pos ⟨h2, h4, rfl⟩]

/-- Conversely, an end-anchored match yields a decomposition. -/
theorem decomp_of_cycleMatchL? (l : List Char) (d : List Char)
    (h : cycleMatchL? l = some d) :
    ∃ p : List Char, l = p ++ '_' :: d ∧ d.all isAsciiDigit = true ∧
      2 ≤ d.length ∧ d.length ≤ 4 := by
  unfold cycleMatchL? at h
  by_cases hc : 2 ≤ (trailingDigits l).length ∧ (trailingDigits l).length ≤ 4 ∧
      (l.take (l.length - (trailingDigits l).length)).getLast? = some '_'
  · rw [if_pos hc] at h
    have hd : trailingDigits l = d := by injection h
    obtain ⟨P, hP⟩ : ∃ P : List Char,
        ((l.reverse).dropWhile isAsciiDigit).reverse = P := ⟨_, rfl⟩
    have hsplit : l = P ++ d := by
      rw [← hP, ← hd]
      unfold trailingDigits
      rw [← List.reverse_append, List.takeWhile_append_dropWhile isAsciiDigit l.reverse,
        List.reverse_reverse]
    have hlenpre : P.length = l.length - d.length := by
      have hlen2 : l.length = P.length + d.length := by
        conv_lhs => rw [hsplit]
        simp [List.length_append]
      omega
    have hpre : l.take (l.length - d.length) = P := by
      rw [← hlenpre]
      conv_lhs => rw [hsplit]
      exact List.take_left _ _
    have hlast : P.getLast? = some '_' := by
      have h3 := hc.2.2
      rw [hd, hpre] at h3
      exact h3
    rcases exists_of_getLast? P '_' hlast with ⟨p', hp'⟩
    refine ⟨p', ?_, ?_, ?_, ?_⟩
    · rw [hsplit, hp', List.append_assoc, List.singleton_append]
    · rw [← hd]
      unfold trailingDigits
      rw [List.all_eq_true]
      intro x hx
      exact mem_takeWhile_pred isAsciiDigit l.reverse x (List.mem_reverse.mp hx)
    · rw [← hd]; exact hc.1
    · rw [← hd]; exact hc.2.1
  · rw [if_neg hc] at h
    cases h

/-- An amended-specification match makes the embedded regular expression
match with the same group. -/
theorem cycleMatch?_of_specDollar (s : String) (d : List Char)
    (h : cycleSpecMatchDollar s d) : cycleMatch? s = some d := by
  rcases h with ⟨p, hl, hall, h2, h4⟩
  exact cycleMatchL?_of_decomp (pyDollarTrim s.data) p d hl hall h2 h4

/-- Conversely, a regular-expression match yields an amended-specification
match. -/
theorem specDollar_of_cycleMatch? (s : String) (d : List Char)
    (h : cycleMatch? s = some d) : cycleSpecMatchDollar s d :=
  decomp_of_cycleMatchL? (pyDollarTrim s.data) d h

/-- A claim-level match (no newline discarded) forces the name's last
character to be an ASCII digit. -/
theorem cycleSpecMatch_last_digit (s : String) (d : List Char)
    (h : cycleSpecMatch s d) :
    ∃ c, s.data.getLast? = some c ∧ isAsciiDigit c = true := by
  rcases h with ⟨p, hs, hall, h2, _⟩
  rcases List.eq_nil_or_concat' d with rfl | ⟨L, b, rfl⟩
  · simp at h2
  · refine ⟨b, ?_, ?_⟩
    · rw [hs, show p ++ '_' :: (L ++ [b]) = (p ++ '_' :: L) ++ [b] by simp,
        List.getLast?_concat]
    · exact List.all_eq_true.mp hall b
        (List.mem_append.mpr (Or.inr (List.mem_singleton.mpr rfl)))

/-- C3 counterexample: `"X_10\n"` does not end in an underscore followed by
a run of 2-4 ASCII digits (its last character is a newline), so the claim
requires the result `("None", "0.0")`; but Python's `$` also matches just
before a single trailing newline, so the source's `infer_cycle_time_details`
extracts `"10"` and returns `("10", "0.01")`. -/
theorem c3_counterexample :
    (∀ d : List Char, ¬ cycleSpecMatch ("X_10\n") d) ∧
    infer_cycle_time_details ("X_10\n") = ("10", "0.01") ∧
    infer_cycle_time_details ("X_10\n") ≠ ("None", "0.0") := by
  refine ⟨?_, rfl, by decide⟩
  intro d hd
  rcases cycleSpecMatch_last_digit ("X_10\n") d hd with ⟨c, hc, hdig⟩
  rw [show ("X_10\n").data.getLast? = some '\n' from rfl] at hc
  rw [← Option.some.inj hc] at hdig
  exact absurd hdig (by decide)

/-- C3 (amended): `infer_cycle_time_details` returns the digit run and its
value divided by 1000 rendered as decimal text whenever the name — after
discarding a single trailing newline if present, per Python's `$` — ends in
an underscore immediately followed by a trailing run of 2-4 ASCII digits,
and `("None", "0.0")` otherwise. -/
theorem c3_amended (s : String) :
    (∀ d : List Char, cycleSpecMatchDollar s d →
      infer_cycle_time_details s = (⟨d⟩, renderDiv1000 (digitsToNat d))) ∧
    ((∀ d : List Char, ¬ cycleSpecMatchDollar s d) →
      infer_cycle_time_details s = ("None", "0.0")) := by
  constructor
  · intro d hd
    unfold infer_cycle_time_details
    rw [cycleMatch?_of_specDollar s d hd]
  · intro hno
    unfold infer_cycle_time_details
    cases hm : cycleMatch? s with
    | none => rfl
    | some d => exact absurd (specDollar_of_cycleMatch? s d hm) (hno d)

/-- C3 (amended) witness: `Engine_Status_100` matches with run `100` and
cycle text `0.1`; `X_10` followed by a newline matches with run `10`;
`Diag_Req` and `X_5` (single digit) do not match. -/
theorem c3_amended_witness :
    infer_cycle_time_details ("Engine_Status_100") = ("100", "0.1") ∧
    infer_cycle_time_details ("X_10\n") = ("10", "0.01") ∧
    infer_cycle_time_details ("Diag_Req") = ("None", "0.0") ∧
    infer_cycle_time_details ("X_5") = ("None", "0.0") := by
  refine ⟨?_, ?_, ?_, ?_⟩
  · have h := (c3_amended ("Engine_Status_100")).1 ("100".data)
      ⟨"Engine_Status".data, rfl, by decide, by decide, by decide⟩
    rw [h]
    rfl
  · have h := (c3_amended ("X_10\n")).1 ("10".data)
      ⟨"X".data, rfl, by decide, by decide, by decide⟩
    rw [h]
    rfl
  · exact (c3_amended ("Diag_Req")).2 (fun d hd => by
      have h1 := cycleMatch?_of_specDollar _ d hd
      rw [show cycleMatch? ("Diag_Req") = none from rfl] at h1
      cases h1)
  · exact (c3_amended ("X_5")).2 (fun d hd => by
      have h1 := cycleMatch?_of_specDollar _ d hd
      rw [show cycleMatch? ("X_5") = none from rfl] at h1
      cases h1)

/-! ### Claim C9 -/

/-- Inversion of one loop step for a mapping with no reference. -/
theorem processMappings_cons_noref (slm : PyDict (Option String) (Option String))
    (m : Elem) (rest : List Elem) (sigs : PyDict String (PyDict String PyVal)) (cnt : Nat)
    (hr : m.findChild "I-SIGNAL-REF" = none) :
    processMappings slm (m :: rest) sigs cnt = processMappings slm rest sigs cnt := by
  simp only [processMappings, hr]

/-- Inversion of one loop step for a mapping with a reference. -/
theorem processMappings_cons_ref (slm : PyDict (Option String) (Option String))
    (m r : Elem) (rest : List Elem) (sigs : PyDict String (PyDict String PyVal)) (cnt : Nat)
    (out : PyDict String (PyDict String PyVal) × Nat)
    (hr : m.findChild "I-SIGNAL-REF" = some r)
    (hok : processMappings slm (m :: rest) sigs cnt = Except.ok out) :
    ∃ se, buildSigEntry slm m r = Except.ok se ∧
      processMappings slm rest (pyInsert se.1 se.2 sigs) (cnt + 1) = Except.ok out := by
  simp only [processMappings] at hok
  rw [hr] at hok
  have hok2 : (match buildSigEntry slm m r with
      | Except.error e => Except.error e
      | Except.ok se => processMappings slm rest (pyInsert se.1 se.2 sigs) (cnt + 1)) =
      Except.ok out := hok
  cases hb : buildSigEntry slm m r with
  | error e => rw [hb] at hok2; cases hok2
  | ok se => rw [hb] at hok2; exact ⟨se, rfl, hok2⟩

/-- The counter counts exactly the mappings carrying an `I-SIGNAL-REF`
child. -/
theorem processMappings_count (slm : PyDict (Option String) (Option String)) :
    ∀ (l : List Elem) (sigs : PyDict String (PyDict String PyVal)) (cnt : Nat)
      (out : PyDict String (PyDict String PyVal) × Nat),
      processMappings slm l sigs cnt = Except.ok out →
      out.2 = cnt + (l.filter hasSigRef).length
  | [], sigs, cnt, out, hok => by
    simp only [processMappings] at hok; cases hok; simp
  | m :: rest, sigs, cnt, out, hok => by
    cases hr : m.findChild "I-SIGNAL-REF" with
    | none =>
      rw [processMappings_cons_noref slm m rest sigs cnt hr] at hok
      rw [processMappings_count slm rest sigs cnt out hok]
      simp [List.filter_cons, hasSigRef, hr]
    | some r =>
      rcases processMappings_cons_ref slm m r rest sigs cnt out hr hok with ⟨se, _, hok2⟩
      rw [processMappings_count slm rest _ (cnt + 1) out hok2]
      have href : hasSigRef m = true := by simp [hasSigRef, hr]
      simp [List.filter_cons, href]
      omega

/-- The signals dict grows by at most one entry per counted mapping. -/
theorem processMappings_length (slm : PyDict (Option String) (Option String)) :
    ∀ (l : List Elem) (sigs : PyDict String (PyDict String PyVal)) (cnt : Nat)
      (out : PyDict String (PyDict String PyVal) × Nat),
      processMappings slm l sigs cnt = Except.ok out →
      out.1.length ≤ sigs.length + (l.filter hasSigRef).length
  | [], sigs, cnt, out, hok => by
    simp only [processMappings] at hok; cases hok; simp
  | m :: rest, sigs, cnt, out, hok => by
    cases hr : m.findChild "I-SIGNAL-REF" with
    | none =>
      rw [processMappings_cons_noref slm m rest sigs cnt hr] at hok
      have h1 := processMappings_length slm rest sigs cnt out hok
      have h2 : hasSigRef m = false := by simp [hasSigRef, hr]
      simp [List.filter_cons, h2]
      omega
    | some r =>
      rcases processMappings_cons_ref slm m r rest sigs cnt out hr hok with ⟨se, _, hok2⟩
      have h1 := processMappings_length slm rest _ (cnt + 1) out hok2
      have h2 := length_pyInsert_le se.1 se.2 sigs
      have href : hasSigRef m = true := by simp [hasSigRef, hr]
      simp [List.filter_cons, href]
      omega

/-- Keys present in the signals dict stay present. -/
theorem processMappings_keys_mono (slm : PyDict (Option String) (Option String)) (k : String) :
    ∀ (l : List Elem) (sigs : PyDict String (PyDict String PyVal)) (cnt : Nat)
      (out : PyDict String (PyDict String PyVal) × Nat),
      processMappings slm l sigs cnt = Except.ok out →
      k ∈ pyKeys sigs → k ∈ pyKeys out.1
  | [], sigs, cnt, out, hok, hk => by
    simp only [processMappings] at hok; cases hok; exact hk
  | m :: rest, sigs, cnt, out, hok, hk => by
    cases hr : m.findChild "I-SIGNAL-REF" with
    | none =>
      rw [processMappings_cons_noref slm m rest sigs cnt hr] at hok
      exact processMappings_keys_mono slm k rest sigs cnt out hok hk
    | some r =>
      rcases processMappings_cons_ref slm m r rest sigs cnt out hr hok with ⟨se, _, hok2⟩
      exact processMappings_keys_mono slm k rest _ (cnt + 1) out hok2
        (mem_pyKeys_insert_of_mem se.1 se.2 hk)

/-- A successful run over an appended mapping list passes through an
intermediate state. -/
theorem processMappings_append (slm : PyDict (Option String) (Option String)) :
    ∀ (l1 l2 : List Elem) (sigs : PyDict String (PyDict String PyVal)) (cnt : Nat)
      (out : PyDict String (PyDict String PyVal) × Nat),
      processMappings slm (l1 ++ l2) sigs cnt = Except.ok out →
      ∃ mid : PyDict String (PyDict String PyVal) × Nat,
        processMappings slm l1 sigs cnt = Except.ok mid ∧
        processMappings slm l2 mid.1 mid.2 = Except.ok out
  | [], _, sigs, cnt, _, hok => ⟨(sigs, cnt), rfl, hok⟩
  | m :: tl, l2, sigs, cnt, out, hok => by
    rw [List.cons_append] at hok
    cases hr : m.findChild "I-SIGNAL-REF" with
    | none =>
      rw [processMappings_cons_noref slm m (tl ++ l2) sigs cnt hr] at hok
      rcases processMappings_append slm tl l2 sigs cnt out hok with ⟨mid, h1, h2⟩
      exact ⟨mid, by rw [processMappings_cons_noref slm m tl sigs cnt hr]; exact h1, h2⟩
    | some r =>
      rcases processMappings_cons_ref slm m r (tl ++ l2) sigs cnt out hr hok with ⟨se, hb, hok2⟩
      rcases processMappings_append slm tl l2 _ (cnt + 1) out hok2 with ⟨mid, h1, h2⟩
      refine ⟨mid, ?_, h2⟩
      simp only [processMappings, hr, hb]
      exact h1

/-- The key a successful mapping step inserts is the last path segment of
the reference's text. -/
theorem buildSigEntry_name (slm : PyDict (Option String) (Option String)) (m r : Elem)
    (se : String × PyDict String PyVal) (h : buildSigEntry slm m r = Except.ok se) :
    ∃ t, r.text = some t ∧ se.1 = pyLastSeg t := by
  unfold buildSigEntry at h
  cases ht : r.text with
  | none => rw [ht] at h; cases h
  | some t =>
    rw [ht] at h
    cases hsb : sigStartBit m with
    | error e => rw [hsb] at h; cases h
    | ok sb =>
      rw [hsb] at h
      refine ⟨t, rfl, ?_⟩
      have h2 := congrArg (fun x : String × PyDict String PyVal => x.1) (Except.ok.inj h)
      exact h2.symm

/-- Once a key is already present, a later mapping with the same key cannot
grow the dict, so the final dict stays strictly below the count. -/
theorem processMappings_length_dup (slm : PyDict (Option String) (Option String)) (k : String) :
    ∀ (l : List Elem) (sigs : PyDict String (PyDict String PyVal)) (cnt : Nat)
      (out : PyDict String (PyDict String PyVal) × Nat),
      processMappings slm l sigs cnt = Except.ok out →
      k ∈ pyKeys sigs →
      (∃ m ∈ l, ∃ r, m.findChild "I-SIGNAL-REF" = some r ∧
        ∃ t, r.text = some t ∧ pyLastSeg t = k) →
      out.1.length + 1 ≤ sigs.length + (l.filter hasSigRef).length
  | [], _, _, _, _, _, hex => by simp at hex
  | m :: rest, sigs, cnt, out, hok, hk, hex => by
    rcases hex with ⟨m2, hmem, r2, hr2, t2, ht2, hk2⟩
    rcases List.mem_cons.mp hmem with rfl | hmem2
    · rcases processMappings_cons_ref slm m2 r2 rest sigs cnt out hr2 hok with ⟨se, hb, hok2⟩
      have hse1 : se.1 = k := by
        rcases buildSigEntry_name slm m2 r2 se hb with ⟨t, ht, hname⟩
        rw [ht2] at ht
        rw [hname, ← Option.some.inj ht]
        exact hk2
      have h1 := processMappings_length slm rest (pyInsert se.1 se.2 sigs) (cnt + 1) out hok2
      have h2 : (pyInsert se.1 se.2 sigs).length = sigs.length :=
        length_pyInsert_of_mem se.2 sigs (by rw [hse1]; exact hk)
      have href : hasSigRef m2 = true := by simp [hasSigRef, hr2]
      simp [List.filter_cons, href]
      omega
    · cases hr : m.findChild "I-SIGNAL-REF" with
      | none =>
        rw [processMappings_cons_noref slm m rest sigs cnt hr] at hok
        have h1 := processMappings_length_dup slm k rest sigs cnt out hok hk
          ⟨m2, hmem2, r2, hr2, t2, ht2, hk2⟩
        have h2 : hasSigRef m = false := by simp [hasSigRef, hr]
        simp [List.filter_cons, h2]
        omega
      | some r =>
        rcases processMappings_cons_ref slm m r rest sigs cnt out hr hok with ⟨se, hb, hok2⟩
        have h1 := processMappings_length_dup slm k rest (pyInsert se.1 se.2 sigs)
          (cnt + 1) out hok2 (mem_pyKeys_insert_of_mem se.1 se.2 hk)
          ⟨m2, hmem2, r2, hr2, t2, ht2, hk2⟩
        have h2 := length_pyInsert_le se.1 se.2 sigs
        have href : hasSigRef m = true := by simp [hasSigRef, hr]
        simp [List.filter_cons, href]
        omega

/-- Properties of one successfully built PDU record: the counter counts the
mappings with references, bounds the signals dict size, and strictly
exceeds it when two mappings share a referenced last path segment. -/
theorem buildPdu_props (slm : PyDict (Option String) (Option String)) (pdu : Elem)
    (name : String) (rec : PduRecord) (h : buildPdu slm pdu = Except.ok (name, rec)) :
    rec.total_signals = ((mappingsOf pdu).filter hasSigRef).length ∧
    rec.signals.length ≤ rec.total_signals ∧
    (∀ (i j : Nat) (hi : i < (mappingsOf pdu).length) (hj : j < (mappingsOf pdu).length)
      (ri rj : Elem) (k : String), i < j →
      ((mappingsOf pdu).get ⟨i, hi⟩).findChild "I-SIGNAL-REF" = some ri →
      ((mappingsOf pdu).get ⟨j, hj⟩).findChild "I-SIGNAL-REF" = some rj →
      ri.text.map pyLastSeg = some k → rj.text.map pyLastSeg = some k →
      rec.signals.length < rec.total_signals) := by
  simp only [buildPdu] at h
  cases hn : textOrDefault (pdu.findChild "SHORT-NAME") "Unnamed_PDU" with
  | none => rw [hn] at h; cases h
  | some pdu_name =>
    rw [hn] at h
    have h2 : (match processMappings slm (mappingsOf pdu) [] 0 with
        | Except.error e => Except.error e
        | Except.ok sc => Except.ok (pdu_name,
            { length := textOrDefault (pdu.findChild "LENGTH") "0"
              cycle_time := infer_cycle_time_from_name pdu_name
              signals := sc.1
              total_signals := sc.2 })) = Except.ok (name, rec) := h
    cases hpm : processMappings slm (mappingsOf pdu) [] 0 with
    | error e => rw [hpm] at h2; cases h2
    | ok sc =>
      rw [hpm] at h2
      have hrec : rec =
          { length := textOrDefault (pdu.findChild "LENGTH") "0",
            cycle_time := infer_cycle_time_from_name pdu_name,
            signals := sc.1, total_signals := sc.2 } :=
        (congrArg Prod.snd (Except.ok.inj h2)).symm
      have hsig : rec.signals = sc.1 := by rw [hrec]
      have htot : rec.total_signals = sc.2 := by rw [hrec]
      have hcnt := processMappings_count slm (mappingsOf pdu) [] 0 sc hpm
      have hlen := processMappings_length slm (mappingsOf pdu) [] 0 sc hpm
      refine ⟨by rw [htot, hcnt]; simp, by rw [hsig, htot, hcnt]; simpa using hlen, ?_⟩
      intro i j hi hj ri rj k hij hri hrj hkri hkrj
      rw [hsig, htot]
      have hsplit : mappingsOf pdu =
          (mappingsOf pdu).take i ++ (mappingsOf pdu).get ⟨i, hi⟩ ::
            (mappingsOf pdu).drop (i + 1) := by
        conv_lhs => rw [← List.take_append_drop i (mappingsOf pdu)]
        rw [List.drop_eq_getElem_cons hi]
        rfl
      rw [hsplit] at hpm
      rcases processMappings_append slm _ _ [] 0 sc hpm with ⟨mid1, hpre, hstep⟩
      rcases processMappings_cons_ref slm _ ri _ mid1.1 mid1.2 sc hri hstep with
        ⟨se, hb, hrest⟩
      have hse1 : se.1 = k := by
        rcases buildSigEntry_name slm _ ri se hb with ⟨t, ht, hname⟩
        rw [ht, Option.map_some'] at hkri
        rw [hname]
        exact Option.some.inj hkri
      have hkin : k ∈ pyKeys (pyInsert se.1 se.2 mid1.1) := by
        rw [← hse1]
        exact mem_pyKeys_insert_self se.1 se.2 mid1.1
      have hj2 : j - (i + 1) < ((mappingsOf pdu).drop (i + 1)).length := by
        rw [List.length_drop]; omega
      have hgetj : ((mappingsOf pdu).drop (i + 1)).get ⟨j - (i + 1), hj2⟩ =
          (mappingsOf pdu).get ⟨j, hj⟩ := by
        show ((mappingsOf pdu).drop (i + 1))[j - (i + 1)] = (mappingsOf pdu)[j]
        rw [List.getElem_drop]
        congr 1
        omega
      have hexj : ∃ m ∈ (mappingsOf pdu).drop (i + 1), ∃ r,
          m.findChild "I-SIGNAL-REF" = some r ∧
          ∃ t, r.text = some t ∧ pyLastSeg t = k := by
        refine ⟨_, List.get_mem _ _ hj2, rj, by rw [hgetj]; exact hrj, ?_⟩
        cases ht : rj.text with
        | none => rw [ht] at hkrj; cases hkrj
        | some t =>
          rw [ht, Option.map_some'] at hkrj
          exact ⟨t, rfl, Option.some.inj hkrj⟩
      have hdup := processMappings_length_dup slm k ((mappingsOf pdu).drop (i + 1))
        (pyInsert se.1 se.2 mid1.1) (mid1.2 + 1) sc hrest hkin hexj
      have hpreLen := processMappings_length slm ((mappingsOf pdu).take i) [] 0 mid1 hpre
      have hinsLen := length_pyInsert_le se.1 se.2 mid1.1
      have hcnt2 : sc.2 = (((mappingsOf pdu).take i ++ (mappingsOf pdu).get ⟨i, hi⟩ ::
          (mappingsOf pdu).drop (i + 1)).filter hasSigRef).length :=
        by simpa using processMappings_count slm _ [] 0 sc hpm
      have hrefI : hasSigRef ((mappingsOf pdu).get ⟨i, hi⟩) = true := by
        unfold hasSigRef
        rw [hri]
        rfl
      rw [List.filter_append, List.filter_cons, hrefI, if_pos rfl] at hcnt2
      simp only [List.length_append, List.length_cons, List.length_nil] at hcnt2 hpreLen hdup
      omega

/-- Every record stored by the PDU fold comes from `buildPdu` on some listed
element (unless it was already in the initial map). -/
theorem foldPdus_origin (slm : PyDict (Option String) (Option String)) :
    ∀ (l : List Elem) (m0 m : PyDict String PduRecord) (k : String) (v : PduRecord),
      foldPdus slm l m0 = Except.ok m → pyGet? k m = some v →
      pyGet? k m0 = some v ∨ ∃ pdu ∈ l, buildPdu slm pdu = Except.ok (k, v)
  | [], m0, m, k, v, hok, hget => by
    simp only [foldPdus] at hok; cases hok; exact Or.inl hget
  | pdu :: rest, m0, m, k, v, hok, hget => by
    simp only [foldPdus] at hok
    cases hb : buildPdu slm pdu with
    | error e => rw [hb] at hok; cases hok
    | ok kv =>
      obtain ⟨k1, v1⟩ := kv
      rw [hb] at hok
      rcases foldPdus_origin slm rest _ m k v hok hget with h0 | ⟨pdu2, hmem, hb2⟩
      · by_cases hkk : k1 = k
        · subst hkk
          rw [pyGet?_insert_self] at h0
          right
          have hv : v1 = v := by simpa using Option.some.inj h0
          exact ⟨pdu, List.mem_cons_self pdu rest, by rw [hb, hv]⟩
        · left
          rwa [pyGet?_insert_ne hkk] at h0
      · exact Or.inr ⟨pdu2, List.mem_cons_of_mem pdu hmem, hb2⟩

/-- C9: every PduRecord produced by `parse_rbs_pdus` comes from some
`I-SIGNAL-I-PDU` element of the document, its `total_signals` equals the
number of signal-to-PDU mapping elements under that PDU that carry an
`I-SIGNAL-REF` child, this count is at least the number of entries of the
signals map, and it strictly exceeds it whenever two mappings reference
signals whose reference paths end in the same last segment. -/
theorem c9_total_signals (doc : Elem) (pm : PyDict String PduRecord)
    (hok : parse_rbs_pdus doc = Except.ok pm)
    (name : String) (rec : PduRecord) (hget : pyGet? name pm = some rec) :
    ∃ pdu ∈ doc.findallDesc "I-SIGNAL-I-PDU",
      (∃ slm, buildSignalLengthMap doc = Except.ok slm ∧
        buildPdu slm pdu = Except.ok (name, rec)) ∧
      rec.total_signals = ((mappingsOf pdu).filter hasSigRef).length ∧
      rec.signals.length ≤ rec.total_signals ∧
      (∀ (i j : Nat) (hi : i < (mappingsOf pdu).length) (hj : j < (mappingsOf pdu).length)
        (ri rj : Elem) (k : String), i < j →
        ((mappingsOf pdu).get ⟨i, hi⟩).findChild "I-SIGNAL-REF" = some ri →
        ((mappingsOf pdu).get ⟨j, hj⟩).findChild "I-SIGNAL-REF" = some rj →
        ri.text.map pyLastSeg = some k → rj.text.map pyLastSeg = some k →
        rec.signals.length < rec.total_signals) := by
  unfold parse_rbs_pdus at hok
  cases hslm : buildSignalLengthMap doc with
  | error e => rw [hslm] at hok; cases hok
  | ok slm =>
    rw [hslm] at hok
    rcases foldPdus_origin slm (doc.findallDesc "I-SIGNAL-I-PDU") [] pm name rec hok hget with
      h0 | ⟨pdu, hmem, hb⟩
    · simp [pyGet?] at h0
    · obtain ⟨h1, h2, h3⟩ := buildPdu_props slm pdu name rec hb
      exact ⟨pdu, hmem, ⟨slm, rfl, hb⟩, h1, h2, h3⟩

/-- C9 witness: in `c9doc` the PDU `P` has two mappings referencing `/A/S`
and `/B/S`; its record has one signals entry but `total_signals = 2`, and
the theorem applies. -/
theorem c9_witness :
    parse_rbs_pdus c9doc = Except.ok ([("P", c9rec)]) ∧
    pyGet? ("P") [("P", c9rec)] = some c9rec ∧
    c9rec.signals.length = 1 ∧ c9rec.total_signals = 2 ∧
    (∃ pdu ∈ c9doc.findallDesc "I-SIGNAL-I-PDU",
      (∃ slm, buildSignalLengthMap c9doc = Except.ok slm ∧
        buildPdu slm pdu = Except.ok ("P", c9rec)) ∧
      c9rec.total_signals = ((mappingsOf pdu).filter hasSigRef).length ∧
      c9rec.signals.length ≤ c9rec.total_signals ∧
      (∀ (i j : Nat) (hi : i < (mappingsOf pdu).length) (hj : j < (mappingsOf pdu).length)
        (ri rj : Elem) (k : String), i < j →
        ((mappingsOf pdu).get ⟨i, hi⟩).findChild "I-SIGNAL-REF" = some ri →
        ((mappingsOf pdu).get ⟨j, hj⟩).findChild "I-SIGNAL-REF" = some rj →
        ri.text.map pyLastSeg = some k → rj.text.map pyLastSeg = some k →
        c9rec.signals.length < c9rec.total_signals)) :=
  ⟨rfl, rfl, rfl, rfl, c9_total_signals c9doc ([("P", c9rec)]) rfl "P" c9rec rfl⟩

/-! ### Claim C2, amended part -/

theorem andE {a b : Bool} (h : (a && b) = true) : a = true ∧ b = true := by
  simp only [Bool.and_eq_true] at h
  exact h

/-- The signal-length pass succeeds when every signal has a `SHORT-NAME`
child. -/
theorem foldSignalLengths_ok :
    ∀ (l : List Elem) (m : PyDict (Option String) (Option String)),
      (∀ sig ∈ l, (sig.findChild "SHORT-NAME").isSome = true) →
      ∃ m', foldSignalLengths l m = Except.ok m'
  | [], m, _ => ⟨m, rfl⟩
  | sig :: rest, m, hall => by
    cases hsn : sig.findChild "SHORT-NAME" with
    | none =>
      have h1 := hall sig (List.mem_cons_self sig rest)
      rw [hsn] at h1
      simp at h1
    | some e =>
      rcases foldSignalLengths_ok rest
        (pyInsert e.text (textOrDefault (sig.findChild "LENGTH") "0") m)
        (fun s hs => hall s (List.mem_cons_of_mem sig hs)) with ⟨m', hm'⟩
      exact ⟨m', by simp only [foldSignalLengths, hsn]; exact hm'⟩

/-- A well-formed mapping's entry builds without error. -/
theorem buildSigEntry_ok (slm : PyDict (Option String) (Option String)) (m r : Elem)
    (hr : m.findChild "I-SIGNAL-REF" = some r) (hwf : mappingWF m = true) :
    ∃ se, buildSigEntry slm m r = Except.ok se := by
  unfold mappingWF at hwf
  rcases andE hwf with ⟨hf, hs⟩
  rw [hr] at hf
  have hf2 : r.text.isSome = true := hf
  cases ht : r.text with
  | none => rw [ht] at hf2; simp at hf2
  | some t =>
    have hsb : ∃ i, sigStartBit m = Except.ok i := by
      unfold sigStartBit
      cases hp : m.findChild "START-POSITION" with
      | none => exact ⟨-1, rfl⟩
      | some p =>
        rw [hp] at hs
        have hs2 : (match p.text with
            | some t2 => (pyInt t2).isOk
            | none => false) = true := hs
        cases hpt : p.text with
        | none => rw [hpt] at hs2; simp at hs2
        | some t2 =>
          rw [hpt] at hs2
          have hs3 : (pyInt t2).isOk = true := hs2
          cases hint : pyInt t2 with
          | error e => rw [hint] at hs3; simp [Except.isOk, Except.toBool] at hs3
          | ok i =>
            refine ⟨i, ?_⟩
            have hred : (match p.text with
                | none => Except.error PyError.typeError
                | some t => pyInt t) = Except.ok i := by rw [hpt]; exact hint
            exact hred
    rcases hsb with ⟨i, hi⟩
    exact ⟨_, by unfold buildSigEntry; rw [ht, hi]⟩

/-- The mapping loop succeeds on well-formed mappings. -/
theorem processMappings_ok (slm : PyDict (Option String) (Option String)) :
    ∀ (l : List Elem) (sigs : PyDict String (PyDict String PyVal)) (cnt : Nat),
      (∀ m ∈ l, mappingWF m = true) →
      ∃ out, processMappings slm l sigs cnt = Except.ok out
  | [], sigs, cnt, _ => ⟨(sigs, cnt), rfl⟩
  | m :: rest, sigs, cnt, hall => by
    cases hr : m.findChild "I-SIGNAL-REF" with
    | none =>
      rcases processMappings_ok slm rest sigs cnt
        (fun x hx => hall x (List.mem_cons_of_mem m hx)) with ⟨out, hout⟩
      exact ⟨out, by rw [processMappings_cons_noref slm m rest sigs cnt hr]; exact hout⟩
    | some r =>
      rcases buildSigEntry_ok slm m r hr (hall m (List.mem_cons_self m rest)) with ⟨se, hse⟩
      rcases processMappings_ok slm rest (pyInsert se.1 se.2 sigs) (cnt + 1)
        (fun x hx => hall x (List.mem_cons_of_mem m hx)) with ⟨out, hout⟩
      exact ⟨out, by simp only [processMappings, hr, hse]; exact hout⟩

/-- A well-formed PDU element builds without error. -/
theorem buildPdu_ok (slm : PyDict (Option String) (Option String)) (pdu : Elem)
    (h : pduWF pdu = true) : ∃ kv, buildPdu slm pdu = Except.ok kv := by
  unfold pduWF at h
  rcases andE h with ⟨h1, h2⟩
  have hname : ∃ nm, textOrDefault (pdu.findChild "SHORT-NAME") "Unnamed_PDU" = some nm := by
    unfold textOrDefault
    cases hsn : pdu.findChild "SHORT-NAME" with
    | none => exact ⟨"Unnamed_PDU", rfl⟩
    | some e =>
      rw [hsn] at h1
      have h1b : e.text.isSome = true := h1
      cases hte : e.text with
      | none => rw [hte] at h1b; simp at h1b
      | some s => exact ⟨s, hte⟩
  rcases hname with ⟨nm, hnm⟩
  rcases processMappings_ok slm (mappingsOf pdu) [] 0
    (fun m hm => List.all_eq_true.mp h2 m hm) with ⟨out, hout⟩
  exact ⟨_, by unfold buildPdu; rw [hnm, hout]⟩

/-- The PDU fold succeeds on well-formed PDU elements. -/
theorem foldPdus_ok (slm : PyDict (Option String) (Option String)) :
    ∀ (l : List Elem) (m0 : PyDict String PduRecord),
      (∀ pdu ∈ l, pduWF pdu = true) →
      ∃ m, foldPdus slm l m0 = Except.ok m
  | [], m0, _ => ⟨m0, rfl⟩
  | pdu :: rest, m0, hall => by
    rcases buildPdu_ok slm pdu (hall pdu (List.mem_cons_self pdu rest)) with ⟨kv, hkv⟩
    rcases foldPdus_ok slm rest (pyInsert kv.1 kv.2 m0)
      (fun x hx => hall x (List.mem_cons_of_mem pdu hx)) with ⟨m, hm⟩
    exact ⟨m, by simp only [foldPdus, hkv]; exact hm⟩

/-- The scale loop succeeds when every present `LOWER-LIMIT` has text. -/
theorem buildCompuScales_ok (cn : Option String) :
    ∀ (scales : List Elem) (acc : List CompuEntry),
      (∀ sc ∈ scales, (match sc.findChild "LOWER-LIMIT" with
        | some e => e.text.isSome
        | none => true) = true) →
      ∃ out, buildCompuScales cn scales acc = Except.ok out
  | [], acc, _ => ⟨acc, rfl⟩
  | sc :: rest, acc, hall => by
    have hl : ∃ ll, textOrDefault (sc.findChild "LOWER-LIMIT") "0" = some ll := by
      unfold textOrDefault
      cases hsc : sc.findChild "LOWER-LIMIT" with
      | none => exact ⟨"0", rfl⟩
      | some e =>
        have h1 := hall sc (List.mem_cons_self sc rest)
        rw [hsc] at h1
        have h1b : e.text.isSome = true := h1
        cases hte : e.text with
        | none => rw [hte] at h1b; simp at h1b
        | some s => exact ⟨s, hte⟩
    rcases hl with ⟨ll, hll⟩
    rcases buildCompuScales_ok cn rest
      (acc ++ [{ signal_name := cn, raw_value := ll, hex_value := pyHexFormat ll,
                 description := textOrDefault (sc.findChildPath "COMPU-CONST" "VT")
                   "No Description" }])
      (fun s hs => hall s (List.mem_cons_of_mem sc hs)) with ⟨out, hout⟩
    exact ⟨out, by simp only [buildCompuScales]; rw [hll]; exact hout⟩

/-- The compu-method loop succeeds on well-formed compu methods. -/
theorem foldCompuMethods_ok :
    ∀ (l : List Elem) (acc : List CompuEntry),
      (∀ cm ∈ l, compuMethodWF cm = true) →
      ∃ out, foldCompuMethods l acc = Except.ok out
  | [], acc, _ => ⟨acc, rfl⟩
  | cm :: rest, acc, hall => by
    have h1 := hall cm (List.mem_cons_self cm rest)
    unfold compuMethodWF at h1
    rcases andE h1 with ⟨hsn1, hsc1⟩
    cases hsn : cm.findChild "SHORT-NAME" with
    | none => rw [hsn] at hsn1; simp at hsn1
    | some sn =>
      rcases buildCompuScales_ok sn.text (scalesOf cm) acc
        (fun s hs => List.all_eq_true.mp hsc1 s hs) with ⟨acc2, hacc2⟩
      rcases foldCompuMethods_ok rest acc2
        (fun x hx => hall x (List.mem_cons_of_mem cm hx)) with ⟨out, hout⟩
      exact ⟨out, by simp only [foldCompuMethods, hsn, hacc2]; exact hout⟩

/-- A well-formed signal resolves without error. -/
theorem resolveSignalCompu_ok (cms : List CompuEntry) (sig : Elem)
    (h : signalCompuWF sig = true) :
    ∃ kv, resolveSignalCompu cms sig = Except.ok kv := by
  unfold signalCompuWF at h
  rcases andE h with ⟨h12, h3⟩
  rcases andE h12 with ⟨h1, h2⟩
  cases hsn : sig.findChild "SHORT-NAME" with
  | none => rw [hsn] at h1; simp at h1
  | some sn =>
    have hpb : physBlocked sig = false := by
      cases hb : physBlocked sig
      · rfl
      · rw [hb] at h2; simp at h2
    cases hdr : directCompuRef sig with
    | none =>
      exact ⟨_, by unfold resolveSignalCompu; rw [hsn, hpb, hdr]; rfl⟩
    | some r =>
      rw [hdr] at h3
      have h3b : r.text.isSome = true := h3
      cases ht : r.text with
      | none => rw [ht] at h3b; simp at h3b
      | some t =>
        cases hfind : cms.find? (fun c => c.signal_name == some (pyLastSeg t)) with
        | none =>
          refine ⟨(sn.text, "0.NoCompuMethod"), ?_⟩
          simp [resolveSignalCompu, hsn, hpb, hdr, ht, hfind]
        | some c =>
          refine ⟨(sn.text, c.raw_value ++ "." ++ pyLastSeg t), ?_⟩
          simp [resolveSignalCompu, hsn, hpb, hdr, ht, hfind]

/-- The signal loop succeeds on well-formed signals. -/
theorem foldSignalCompu_ok (cms : List CompuEntry) :
    ∀ (l : List Elem) (m : PyDict (Option String) String),
      (∀ sig ∈ l, signalCompuWF sig = true) →
      ∃ out, foldSignalCompu cms l m = Except.ok out
  | [], m, _ => ⟨m, rfl⟩
  | sig :: rest, m, hall => by
    rcases resolveSignalCompu_ok cms sig (hall sig (List.mem_cons_self sig rest)) with ⟨kv, hkv⟩
    rcases foldSignalCompu_ok cms rest (pyInsert kv.1 kv.2 m)
      (fun x hx => hall x (List.mem_cons_of_mem sig hx)) with ⟨out, hout⟩
    exact ⟨out, by simp only [foldSignalCompu, hkv]; exact hout⟩

/-- C2 (amended): beyond the two structural cases the claim lists, the only
raising shapes are those excluded by `rbsWF`/`compuWF` (an `I-SIGNAL` or
`COMPU-METHOD` without a `SHORT-NAME` child, a present `SHORT-NAME`,
`I-SIGNAL-REF`, `COMPU-METHOD-REF` or `LOWER-LIMIT` whose text is empty, a
`START-POSITION` whose text `int()` rejects, and a signal with a data-type
reference — whose lookup uses an XPath predicate `xml.etree` rejects).  On
every document satisfying these conditions, all other absent elements
resolve to their documented defaults and both `parse_rbs_pdus` and
`extract_signal_compu_methods` return normally, an unresolvable
compu-method chain yielding the sentinel `"0.NoCompuMethod"`. -/
theorem c2_never_raises (doc : Elem) (h1 : rbsWF doc = true) (h2 : compuWF doc = true) :
    (∃ pm, parse_rbs_pdus doc = Except.ok pm) ∧
    (∃ r, extract_signal_compu_methods doc = Except.ok r) := by
  unfold rbsWF at h1
  unfold compuWF at h2
  rcases andE h1 with ⟨h1a, h1b⟩
  rcases andE h2 with ⟨h2a, h2b⟩
  constructor
  · rcases foldSignalLengths_ok (doc.findallDesc "I-SIGNAL") []
      (fun s hs => List.all_eq_true.mp h1a s hs) with ⟨slm, hslm⟩
    rcases foldPdus_ok slm (doc.findallDesc "I-SIGNAL-I-PDU") []
      (fun p hp => List.all_eq_true.mp h1b p hp) with ⟨pm, hpm⟩
    refine ⟨pm, ?_⟩
    unfold parse_rbs_pdus buildSignalLengthMap
    rw [hslm]
    exact hpm
  · rcases foldCompuMethods_ok (doc.findallDesc "COMPU-METHOD") []
      (fun c hc => List.all_eq_true.mp h2a c hc) with ⟨cms, hcms⟩
    rcases foldSignalCompu_ok cms (doc.findallDesc "I-SIGNAL") []
      (fun s hs => List.all_eq_true.mp h2b s hs) with ⟨scm, hscm⟩
    refine ⟨(cms, scm), ?_⟩
    unfold extract_signal_compu_methods
    rw [hcms]
    have hgoal : (match foldSignalCompu cms (doc.findallDesc "I-SIGNAL") [] with
        | Except.error e => Except.error e
        | Except.ok signal_compu_map => Except.ok (cms, signal_compu_map)) =
        Except.ok (cms, scm) := by rw [hscm]
    exact hgoal

/-- C2 witness: `c2goodDoc` is well formed and both functions return
normally on it. -/
theorem c2_witness :
    rbsWF c2goodDoc = true ∧ compuWF c2goodDoc = true ∧
    (∃ pm, parse_rbs_pdus c2goodDoc = Except.ok pm) ∧
    (∃ r, extract_signal_compu_methods c2goodDoc = Except.ok r) :=
  ⟨by decide, by decide, (c2_never_raises c2goodDoc (by decide) (by decide)).1,
   (c2_never_raises c2goodDoc (by decide) (by decide)).2⟩
